import Mathlib

/-!
Verification of the envelope-encryption core of the mirfa IBC challenge
repository (packages/crypto/dist/encryption.js and its types).

Byte strings are modelled as `List Nat` with every byte below 256; hex
strings are Lean `String`s.  The Node.js AES-256-GCM primitives
(`createCipheriv` / `createDecipheriv`) and the JSON built-ins
(`JSON.stringify` / `JSON.parse`) are not part of the repository source and
are modelled from the spec as an ideal authenticated cipher and an injective
canonical serialization; everything else is translated directly from
`encryption.js`.
-/

namespace MirfaCrypto

/-! ## Hex encoding and decoding

`isValidHex` translates the regex test `/^[0-9a-fA-F]*$/` of
`encryption.js`; `hexDecode` models Node's `Buffer.from(s, "hex")`, which
decodes two hex digits per byte and stops at the first character pair that
is not two hex digits (an unpaired trailing digit is dropped).
-/

/-- Value of one hex digit, as accepted by the regex `[0-9a-fA-F]`. -/
def hexDigitVal? (c : Char) : Option Nat :=
  if '0' ≤ c ∧ c ≤ '9' then some (c.toNat - 48)
  else if 'a' ≤ c ∧ c ≤ 'f' then some (c.toNat - 87)
  else if 'A' ≤ c ∧ c ≤ 'F' then some (c.toNat - 55)
  else none

/-- Translation of `isValidHex` (the regex test `/^[0-9a-fA-F]*$/`). -/
def isValidHex (s : String) : Bool :=
  s.data.all fun c => (hexDigitVal? c).isSome

/-- Pairwise hex decoding of a character list, with Node's semantics of
`Buffer.from(s, "hex")`: stop at the first invalid pair, drop an unpaired
trailing character. -/
def hexDecodeAux : List Char → List Nat
  | c1 :: c2 :: rest =>
    match hexDigitVal? c1, hexDigitVal? c2 with
    | some h, some l => (16 * h + l) :: hexDecodeAux rest
    | _, _ => []
  | _ => []

/-- Model of `Buffer.from(s, "hex")` as a list of byte values. -/
def hexDecode (s : String) : List Nat :=
  hexDecodeAux s.data

/-- Lowercase hex digit for a value below 16 (as produced by Node's
`buffer.toString("hex")`). -/
def hexDigitChar (n : Nat) : Char :=
  if n < 10 then Char.ofNat (48 + n) else Char.ofNat (87 + n)

/-- Character list of the lowercase hex encoding of a byte list. -/
def hexEncodeAux : List Nat → List Char
  | [] => []
  | b :: bs => hexDigitChar (b / 16) :: hexDigitChar (b % 16) :: hexEncodeAux bs

/-- Model of `buffer.toString("hex")`. -/
def hexEncode (bs : List Nat) : String :=
  ⟨hexEncodeAux bs⟩

/-! ## Error model

`encryption.js` throws `ValidationError` or `DecryptionError`
(types.ts); fallible operations are modelled with `Except CryptoError`.
-/

/-- The two error classes of `types.ts`. -/
inductive CryptoError where
  | validationError (message : String)
  | decryptionError (message : String)
deriving DecidableEq

deriving instance DecidableEq for Except

/-- Translation of `validateNonce` from `encryption.js`. -/
def validateNonce (nonce fieldName : String) : Except CryptoError Unit :=
  if ¬ isValidHex nonce then
    .error (.validationError (fieldName ++ " must be valid hex"))
  else if (hexDecode nonce).length ≠ 12 then
    .error (.validationError (fieldName ++ " must be 12 bytes"))
  else
    .ok ()

/-- Translation of `validateTag` from `encryption.js`. -/
def validateTag (tag fieldName : String) : Except CryptoError Unit :=
  if ¬ isValidHex tag then
    .error (.validationError (fieldName ++ " must be valid hex"))
  else if (hexDecode tag).length ≠ 16 then
    .error (.validationError (fieldName ++ " must be 16 bytes"))
  else
    .ok ()

/-- Translation of `validateCipherText` from `encryption.js` (the length
check is on the hex string itself, not on the decoded bytes). -/
def validateCipherText (ct fieldName : String) : Except CryptoError Unit :=
  if ¬ isValidHex ct then
    .error (.validationError (fieldName ++ " must be valid hex"))
  else if ct.length = 0 then
    .error (.validationError (fieldName ++ " cannot be empty"))
  else
    .ok ()

/-! ## Master key resolution

Translation of `getMasterKey` from `encryption.js`.  The ambient effects
are passed explicitly: the value of `process.env.MASTER_KEY` (`none` when
unset; the JS truthiness test also skips an empty string), the contents of
the key file when it exists, and the 32 random bytes that would be
generated and persisted when neither source is present. -/

/-- Whitespace as removed by JavaScript's `String.prototype.trim` (the
ASCII part, which is all a hex key file can contain around its payload). -/
def isJsWhitespace (c : Char) : Bool :=
  c = ' ' ∨ c = '\t' ∨ c = '\n' ∨ c = '\r' ∨ c = '\x0b' ∨ c = '\x0c'

/-- Model of the `.trim()` call on the key file contents. -/
def jsTrim (s : String) : String :=
  ⟨((s.data.dropWhile isJsWhitespace).reverse.dropWhile isJsWhitespace).reverse⟩

/-- Branches 2 and 3 of `getMasterKey`: read and hex-decode the trimmed
key file when it exists, otherwise generate (and persist) a fresh key. -/
def getMasterKeyFromFile (keyFileContents : Option String)
    (freshKey : List Nat) : List Nat :=
  match keyFileContents with
  | some contents => hexDecode (jsTrim contents)
  | none => freshKey

/-- Translation of `getMasterKey`: environment variable first (JS
truthiness: unset or empty string falls through), then key file, then
fresh generation.  Note the function is total: no input makes it fail. -/
def getMasterKey (envMasterKey keyFileContents : Option String)
    (freshKey : List Nat) : List Nat :=
  match envMasterKey with
  | some s => if s = "" then getMasterKeyFromFile keyFileContents freshKey
              else hexDecode s
  | none => getMasterKeyFromFile keyFileContents freshKey

/-! ## JSON values and their serialization

Modelled from the spec: `JSON.stringify` / `JSON.parse` are JavaScript
built-ins, not part of the repository source.  §4.3 requires only that
encode serializes the payload to a canonical byte string and that decode
parses it back, a parse failure being possible on bytes that are not a
valid serialization.  They are modelled as an injective canonical
serialization of JSON values into bytes together with its parser. -/

/-- JSON values (numbers restricted to integers in this model). -/
inductive Json where
  | null : Json
  | bool (b : Bool) : Json
  | num (n : Int) : Json
  | str (s : String) : Json
  | arr (elements : List Json) : Json
  | obj (fields : List (String × Json)) : Json

/-- Self-delimiting byte encoding of a natural number: little-endian
base-255 digits, terminated by the byte 255. -/
def encNat (n : Nat) : List Nat :=
  if h : n = 0 then [255]
  else n % 255 :: encNat (n / 255)
termination_by n
decreasing_by exact Nat.div_lt_self (Nat.pos_of_ne_zero h) (by norm_num)

/-- Byte encoding of an integer: sign byte then magnitude. -/
def encInt (i : Int) : List Nat :=
  if 0 ≤ i then 0 :: encNat i.toNat else 1 :: encNat (-i).toNat

/-- Byte encoding of a string: length then one encoded code point per
character. -/
def encString (s : String) : List Nat :=
  encNat s.data.length ++ (s.data.map fun c => encNat c.toNat).flatten

mutual

/-- Modelled from the spec: canonical injective byte serialization of a
JSON value, standing in for `Buffer.from(JSON.stringify(payload), "utf-8")`. -/
def encJson : Json → List Nat
  | .null => [0]
  | .bool false => [1]
  | .bool true => [2]
  | .num i => 3 :: encInt i
  | .str s => 4 :: encString s
  | .arr xs => 5 :: (encNat xs.length ++ encJsonList xs)
  | .obj fs => 6 :: (encNat fs.length ++ encJsonFields fs)

/-- Concatenated serializations of a list of JSON values. -/
def encJsonList : List Json → List Nat
  | [] => []
  | x :: xs => encJson x ++ encJsonList xs

/-- Concatenated serializations of the fields of a JSON object. -/
def encJsonFields : List (String × Json) → List Nat
  | [] => []
  | (k, v) :: fs => encString k ++ encJson v ++ encJsonFields fs

end

/-- Decode a natural number from the front of a byte list. -/
def decNat : List Nat → Option (Nat × List Nat)
  | [] => none
  | b :: rest =>
    if b = 255 then some (0, rest)
    else if b < 255 then
      match decNat rest with
      | some (n, r) => some (b + 255 * n, r)
      | none => none
    else none

/-- Decode an integer from the front of a byte list. -/
def decInt : List Nat → Option (Int × List Nat)
  | 0 :: rest =>
    match decNat rest with
    | some (n, r) => some ((n : Int), r)
    | none => none
  | 1 :: rest =>
    match decNat rest with
    | some (n, r) => some (-(n : Int), r)
    | none => none
  | _ => none

/-- Decode a fixed number of characters from the front of a byte list. -/
def decChars : Nat → List Nat → Option (List Char × List Nat)
  | 0, bs => some ([], bs)
  | k + 1, bs =>
    match decNat bs with
    | some (n, r) =>
      match decChars k r with
      | some (cs, r2) => some (Char.ofNat n :: cs, r2)
      | none => none
    | none => none

/-- Decode a string from the front of a byte list. -/
def decString (bs : List Nat) : Option (String × List Nat) :=
  match decNat bs with
  | some (len, r) =>
    match decChars len r with
    | some (cs, r2) => some (⟨cs⟩, r2)
    | none => none
  | none => none

mutual

/-- Fuelled decoder for the canonical JSON serialization. -/
def decJson : Nat → List Nat → Option (Json × List Nat)
  | 0, _ => none
  | fuel + 1, bs =>
    match bs with
    | 0 :: r => some (.null, r)
    | 1 :: r => some (.bool false, r)
    | 2 :: r => some (.bool true, r)
    | 3 :: r =>
      match decInt r with
      | some (i, r2) => some (.num i, r2)
      | none => none
    | 4 :: r =>
      match decString r with
      | some (s, r2) => some (.str s, r2)
      | none => none
    | 5 :: r =>
      match decNat r with
      | some (n, r2) =>
        match decJsonList fuel n r2 with
        | some (xs, r3) => some (.arr xs, r3)
        | none => none
      | none => none
    | 6 :: r =>
      match decNat r with
      | some (n, r2) =>
        match decJsonFields fuel n r2 with
        | some (fs, r3) => some (.obj fs, r3)
        | none => none
      | none => none
    | _ => none
termination_by fuel _ => (fuel, 0)

/-- Decode a fixed number of JSON values. -/
def decJsonList : Nat → Nat → List Nat → Option (List Json × List Nat)
  | _, 0, bs => some ([], bs)
  | fuel, k + 1, bs =>
    match decJson fuel bs with
    | some (x, r) =>
      match decJsonList fuel k r with
      | some (xs, r2) => some (x :: xs, r2)
      | none => none
    | none => none
termination_by fuel k _ => (fuel, k + 1)

/-- Decode a fixed number of JSON object fields. -/
def decJsonFields : Nat → Nat → List Nat → Option (List (String × Json) × List Nat)
  | _, 0, bs => some ([], bs)
  | fuel, k + 1, bs =>
    match decString bs with
    | some (key, r) =>
      match decJson fuel r with
      | some (v, r2) =>
        match decJsonFields fuel k r2 with
        | some (fs, r3) => some ((key, v) :: fs, r3)
        | none => none
      | none => none
    | none => none
termination_by fuel k _ => (fuel, k + 1)

end

/-- Modelled from the spec: serialization of the payload to bytes. -/
def jsonStringify (j : Json) : List Nat := encJson j

/-- Modelled from the spec: `JSON.parse` over the canonical serialization;
requires full consumption of the input, fails on anything else. -/
def jsonParse (bs : List Nat) : Option Json :=
  match decJson (bs.length + 1) bs with
  | some (j, []) => some j
  | _ => none

/-! ## The authenticated cipher

Modelled from the spec: the AES-256-GCM primitives behind
`createCipheriv` / `createDecipheriv` are Node library code, not part of
the repository source.  §4.2 specifies `seal` / `open` as an authenticated
cipher: counter-mode encryption with a keystream derived from key and
nonce, plus a 16-byte tag bound to key, nonce and ciphertext, with `open`
failing as one opaque condition on any mismatch.  The model keeps those
contracts exact: the keystream XOR is its own inverse and the tag detects
any change of nonce or tag and any single-byte change of the ciphertext. -/

/-- Keystream byte `i` for the modelled cipher. -/
def ksByte (key nonce : List Nat) (i : Nat) : Nat :=
  (key.getD (i % 32) 0 + nonce.getD (i % 12) 0 + i) % 256

/-- Counter-mode body of the modelled cipher: XOR the bytes with the
keystream starting at position `i`.  Applying it twice gives the input
back, as with AES-GCM's counter mode. -/
def xorKs (key nonce : List Nat) : Nat → List Nat → List Nat
  | _, [] => []
  | i, b :: bs => (b ^^^ ksByte key nonce i) :: xorKs key nonce (i + 1) bs

/-- The modelled 16-byte GCM authentication tag over key, nonce and
ciphertext: a ciphertext checksum byte, twelve bytes mixing key and nonce,
the ciphertext length and two key bytes. -/
def tagOf (key nonce ct : List Nat) : List Nat :=
  (ct.foldr (· + ·) 0 % 256)
    :: (((List.range 12).map fun j => (key.getD j 0 + nonce.getD j 0) % 256)
      ++ [ct.length % 256, key.getD 12 0 % 256, key.getD 13 0 % 256])

/-- Hex triple produced by one `seal` call. -/
structure EncryptedParts where
  nonce : String
  ciphertext : String
  tag : String

/-- Translation of `encrypt` from `encryption.js`, with the random nonce
passed explicitly and `createCipheriv` modelled as above. -/
def encrypt (data key nonceBytes : List Nat) : EncryptedParts :=
  let ciphertext := xorKs key nonceBytes 0 data
  { nonce := hexEncode nonceBytes
    ciphertext := hexEncode ciphertext
    tag := hexEncode (tagOf key nonceBytes ciphertext) }

/-- Translation of `decrypt` from `encryption.js`: every failure inside
the `try` block (a wrong key length in `createDecipheriv` as much as an
authentication failure in `decipher.final()`) is caught and rethrown as
the one `DecryptionError`. -/
def decrypt (ciphertext : String) (key : List Nat) (nonce tag : String) :
    Except CryptoError (List Nat) :=
  let n := hexDecode nonce
  let t := hexDecode tag
  let ct := hexDecode ciphertext
  if key.length = 32 ∧ t = tagOf key n ct then
    .ok (xorKs key n 0 ct)
  else
    .error (.decryptionError "Decryption failed: ciphertext or tag may be tampered")

/-! ## Records and the envelope codec -/

/-- Translation of `TxSecureRecord` from `types.ts`.  The `alg` and
`mk_version` fields are literal types in TypeScript, but a record arriving
from storage or over the wire can hold any value there, which is exactly
what `validateRecord` checks; they are modelled as `String` and `Int`. -/
structure TxSecureRecord where
  id : String
  partyId : String
  createdAt : String
  payload_nonce : String
  payload_ct : String
  payload_tag : String
  dek_wrap_nonce : String
  dek_wrapped : String
  dek_wrap_tag : String
  alg : String
  mk_version : Int

/-- Translation of `EncryptRequest` from `types.ts`. -/
structure EncryptRequest where
  partyId : String
  payload : Json

/-- Translation of `DecryptedTx` from `types.ts`. -/
structure DecryptedTx where
  partyId : String
  payload : Json
  createdAt : String

/-- Translation of `encryptTransaction` from `encryption.js`.  The module
global `MASTER_KEY` and the calls to `randomBytes` (the DEK, the two
nonces, the record id) and `new Date()` are passed explicitly. -/
def encryptTransaction (masterKey : List Nat) (request : EncryptRequest)
    (dek payloadNonce dekWrapNonce : List Nat)
    (idHex createdAt : String) : TxSecureRecord :=
  let payloadBuffer := jsonStringify request.payload
  let p := encrypt payloadBuffer dek payloadNonce
  let d := encrypt dek masterKey dekWrapNonce
  { id := idHex
    partyId := request.partyId
    createdAt := createdAt
    payload_nonce := p.nonce
    payload_ct := p.ciphertext
    payload_tag := p.tag
    dek_wrap_nonce := d.nonce
    dek_wrapped := d.ciphertext
    dek_wrap_tag := d.tag
    alg := "AES-256-GCM"
    mk_version := 1 }

/-- Translation of `decryptTransaction` from `encryption.js`: the six
inline field validations, then DEK unwrap, payload decryption and JSON
parsing inside a `try` whose catch rethrows `ValidationError` and
`DecryptionError` and wraps anything else (a `JSON.parse` syntax error)
into a `DecryptionError`. -/
def decryptTransaction (masterKey : List Nat) (record : TxSecureRecord) :
    Except CryptoError DecryptedTx :=
  match validateNonce record.payload_nonce "payload_nonce" with
  | .error e => .error e
  | .ok _ =>
  match validateTag record.payload_tag "payload_tag" with
  | .error e => .error e
  | .ok _ =>
  match validateCipherText record.payload_ct "payload_ct" with
  | .error e => .error e
  | .ok _ =>
  match validateNonce record.dek_wrap_nonce "dek_wrap_nonce" with
  | .error e => .error e
  | .ok _ =>
  match validateTag record.dek_wrap_tag "dek_wrap_tag" with
  | .error e => .error e
  | .ok _ =>
  match validateCipherText record.dek_wrapped "dek_wrapped" with
  | .error e => .error e
  | .ok _ =>
  match decrypt record.dek_wrapped masterKey record.dek_wrap_nonce
      record.dek_wrap_tag with
  | .error e => .error e
  | .ok dek =>
  match decrypt record.payload_ct dek record.payload_nonce
      record.payload_tag with
  | .error e => .error e
  | .ok payloadBuffer =>
  match jsonParse payloadBuffer with
  | none => .error (.decryptionError "Decryption failed: invalid JSON")
  | some payload =>
    .ok { partyId := record.partyId
          payload := payload
          createdAt := record.createdAt }

/-- Translation of `validateRecord` from `encryption.js`: the six field
validations in source order, then the algorithm check, then the master
key version check. -/
def validateRecord (record : TxSecureRecord) : Except CryptoError Unit :=
  match validateNonce record.payload_nonce "payload_nonce" with
  | .error e => .error e
  | .ok _ =>
  match validateTag record.payload_tag "payload_tag" with
  | .error e => .error e
  | .ok _ =>
  match validateCipherText record.payload_ct "payload_ct" with
  | .error e => .error e
  | .ok _ =>
  match validateNonce record.dek_wrap_nonce "dek_wrap_nonce" with
  | .error e => .error e
  | .ok _ =>
  match validateTag record.dek_wrap_tag "dek_wrap_tag" with
  | .error e => .error e
  | .ok _ =>
  match validateCipherText record.dek_wrapped "dek_wrapped" with
  | .error e => .error e
  | .ok _ =>
  if record.alg ≠ "AES-256-GCM" then
    .error (.validationError "Invalid algorithm")
  else if record.mk_version ≠ 1 then
    .error (.validationError "Invalid master key version")
  else
    .ok ()

/-! ## Lemmas about hex encoding -/

/-- Every byte list we handle is a list of values below 256. -/
def ByteList (bs : List Nat) : Prop := ∀ b ∈ bs, b < 256

instance (bs : List Nat) : Decidable (ByteList bs) := by
  unfold ByteList; infer_instance

theorem hexDigitVal_hexDigitChar : ∀ n < 16, hexDigitVal? (hexDigitChar n) = some n := by
  decide

theorem hexEncodeAux_length (bs : List Nat) :
    (hexEncodeAux bs).length = 2 * bs.length := by
  induction bs with
  | nil => rfl
  | cons b bs ih => simp [hexEncodeAux, ih]; ring

theorem div16_lt (b : Nat) (h : b < 256) : b / 16 < 16 :=
  (Nat.div_lt_iff_lt_mul (by norm_num)).mpr h

theorem hexDecodeAux_hexEncodeAux (bs : List Nat) (h : ByteList bs) :
    hexDecodeAux (hexEncodeAux bs) = bs := by
  induction bs with
  | nil => rfl
  | cons b bs ih =>
    have hb : b < 256 := h b (by simp)
    have h1 := hexDigitVal_hexDigitChar (b / 16) (div16_lt b hb)
    have h2 := hexDigitVal_hexDigitChar (b % 16) (Nat.mod_lt b (by norm_num))
    have ih2 := ih fun x hx => h x (by simp [hx])
    simp [hexEncodeAux, hexDecodeAux, h1, h2, ih2, Nat.div_add_mod]

theorem hexDecode_hexEncode (bs : List Nat) (h : ByteList bs) :
    hexDecode (hexEncode bs) = bs :=
  hexDecodeAux_hexEncodeAux bs h

theorem isValidHex_hexEncode (bs : List Nat) (h : ByteList bs) :
    isValidHex (hexEncode bs) = true := by
  show (hexEncodeAux bs).all _ = true
  induction bs with
  | nil => rfl
  | cons b bs ih =>
    have hb : b < 256 := h b (by simp)
    have h1 := hexDigitVal_hexDigitChar (b / 16) (div16_lt b hb)
    have h2 := hexDigitVal_hexDigitChar (b % 16) (Nat.mod_lt b (by norm_num))
    have ih2 := ih fun x hx => h x (by simp [hx])
    simp [hexEncodeAux, h1, h2]
    exact List.all_eq_true.mp ih2

theorem hexEncode_length (bs : List Nat) :
    (hexEncode bs).length = 2 * bs.length :=
  hexEncodeAux_length bs

/-! ## Lemmas about the field validators -/

theorem validateNonce_hexEncode (bs : List Nat) (f : String)
    (h : ByteList bs) (hl : bs.length = 12) :
    validateNonce (hexEncode bs) f = .ok () := by
  unfold validateNonce
  simp [isValidHex_hexEncode bs h, hexDecode_hexEncode bs h, hl]

theorem validateTag_hexEncode (bs : List Nat) (f : String)
    (h : ByteList bs) (hl : bs.length = 16) :
    validateTag (hexEncode bs) f = .ok () := by
  unfold validateTag
  simp [isValidHex_hexEncode bs h, hexDecode_hexEncode bs h, hl]

theorem validateCipherText_hexEncode (bs : List Nat) (f : String)
    (h : ByteList bs) (hne : bs ≠ []) :
    validateCipherText (hexEncode bs) f = .ok () := by
  unfold validateCipherText
  have hlen : (hexEncode bs).length ≠ 0 := by
    rw [hexEncode_length]
    simpa using hne
  simp [isValidHex_hexEncode bs h, hlen]

/-! ## Lemmas about the modelled cipher -/

theorem lt256_xor (a b : Nat) (ha : a < 256) (hb : b < 256) : a ^^^ b < 256 := by
  have h8 : (256 : Nat) = 2 ^ 8 := by norm_num
  rw [h8] at ha hb ⊢
  exact Nat.xor_lt_two_pow ha hb

theorem ksByte_lt (key nonce : List Nat) (i : Nat) : ksByte key nonce i < 256 :=
  Nat.mod_lt _ (by norm_num)

theorem xorKs_length (key nonce : List Nat) (i : Nat) (bs : List Nat) :
    (xorKs key nonce i bs).length = bs.length := by
  induction bs generalizing i with
  | nil => rfl
  | cons b bs ih => simp [xorKs, ih]

theorem xorKs_xorKs (key nonce : List Nat) (i : Nat) (bs : List Nat) :
    xorKs key nonce i (xorKs key nonce i bs) = bs := by
  induction bs generalizing i with
  | nil => rfl
  | cons b bs ih =>
    simp [xorKs, ih, Nat.xor_cancel_right]

theorem xorKs_byteList (key nonce : List Nat) (bs : List Nat) :
    ∀ i, ByteList bs → ByteList (xorKs key nonce i bs) := by
  induction bs with
  | nil => intro i _ b hb; simp [xorKs] at hb
  | cons b bs ih =>
    intro i h x hx
    simp only [xorKs, List.mem_cons] at hx
    rcases hx with hx | hx
    · subst hx
      exact lt256_xor _ _ (h b (by simp)) (ksByte_lt key nonce i)
    · exact ih (i + 1) (fun y hy => h y (by simp [hy])) x hx

theorem tagOf_length (key nonce ct : List Nat) : (tagOf key nonce ct).length = 16 := by
  simp [tagOf]

theorem tagOf_byteList (key nonce ct : List Nat) : ByteList (tagOf key nonce ct) := by
  intro b hb
  simp only [tagOf, List.mem_cons, List.mem_append, List.mem_map,
    List.mem_range, List.mem_singleton, List.not_mem_nil, or_false] at hb
  rcases hb with hb | ⟨j, _, hb⟩ | hb | hb | hb
  all_goals subst hb
  all_goals exact Nat.mod_lt _ (by norm_num)

theorem foldr_add_append (l1 l2 : List Nat) :
    (l1 ++ l2).foldr (· + ·) 0 = l1.foldr (· + ·) 0 + l2.foldr (· + ·) 0 := by
  induction l1 with
  | nil => simp
  | cons a l ih => simp [ih, Nat.add_assoc]

theorem set_decomp {α : Type} (l : List α) :
    ∀ i, i < l.length → ∀ y : α, l.set i y = l.take i ++ y :: l.drop (i + 1) := by
  induction l with
  | nil => intro i hi; simp at hi
  | cons a l ih =>
    intro i hi y
    cases i with
    | zero => simp
    | succ j =>
      have hj : j < l.length := by simpa using hi
      simp [List.set, ih j hj y]

theorem self_decomp {α : Type} (d : α) (l : List α) :
    ∀ i, i < l.length → l = l.take i ++ l.getD i d :: l.drop (i + 1) := by
  induction l with
  | nil => intro i hi; simp at hi
  | cons a l ih =>
    intro i hi
    cases i with
    | zero => simp
    | succ j =>
      have hj : j < l.length := by simpa using hi
      simpa using ih j hj

theorem mod256_inj (x y : Nat) (hx : x < 256) (hy : y < 256)
    (h : x % 256 = y % 256) : x = y := by
  rwa [Nat.mod_eq_of_lt hx, Nat.mod_eq_of_lt hy] at h

theorem checksum_ne (pre post : List Nat) (x y : Nat) (hx : x < 256) (hy : y < 256)
    (hne : x ≠ y) :
    (pre ++ x :: post).foldr (· + ·) 0 % 256 ≠ (pre ++ y :: post).foldr (· + ·) 0 % 256 := by
  intro h
  rw [foldr_add_append, foldr_add_append] at h
  simp only [List.foldr_cons] at h
  have h2 : x + (pre.foldr (· + ·) 0 + post.foldr (· + ·) 0) ≡
      y + (pre.foldr (· + ·) 0 + post.foldr (· + ·) 0) [MOD 256] := by
    unfold Nat.ModEq
    ring_nf
    ring_nf at h
    omega
  exact hne (mod256_inj x y hx hy (Nat.ModEq.add_right_cancel' _ h2))

/-- A change of one ciphertext byte to a different value changes the tag:
the checksum byte of the modelled tag differs. -/
theorem tagOf_ne_set (key nonce ct : List Nat) (i y : Nat) (hi : i < ct.length)
    (hct : ByteList ct) (hy : y < 256) (hne : y ≠ ct.getD i 0) :
    tagOf key nonce (ct.set i y) ≠ tagOf key nonce ct := by
  intro h
  have hx : ct.getD i 0 < 256 := by
    have hm : ct.getD i 0 ∈ ct := by
      rw [List.getD_eq_getElem ct 0 hi]
      exact List.getElem_mem hi
    exact hct _ hm
  have hset := set_decomp ct i hi y
  have hself := self_decomp 0 ct i hi
  have hhead : (ct.set i y).foldr (· + ·) 0 % 256 = ct.foldr (· + ·) 0 % 256 := by
    have := congrArg (fun l => l.headD 0) h
    simpa [tagOf] using this
  have e1 := congrArg (fun l : List Nat => l.foldr (· + ·) 0 % 256) hset
  have e2 := congrArg (fun l : List Nat => l.foldr (· + ·) 0 % 256) hself
  simp only at e1 e2
  exact checksum_ne (ct.take i) (ct.drop (i + 1)) y (ct.getD i 0) hy hx hne
    (e1.symm.trans (hhead.trans e2))

/-- A change of the nonce to a different 12-byte value changes the tag:
one of the twelve key/nonce mix bytes of the modelled tag differs. -/
theorem tagOf_ne_nonce (key n1 n2 ct : List Nat) (h1 : n1.length = 12)
    (h2 : n2.length = 12) (hb1 : ByteList n1) (hb2 : ByteList n2)
    (hne : n1 ≠ n2) : tagOf key n1 ct ≠ tagOf key n2 ct := by
  intro h
  apply hne
  have htails : ((List.range 12).map fun j => (key.getD j 0 + n1.getD j 0) % 256) =
      ((List.range 12).map fun j => (key.getD j 0 + n2.getD j 0) % 256) := by
    have htail := congrArg List.tail h
    simp only [tagOf, List.tail_cons] at htail
    exact List.append_inj_left htail (by simp)
  apply List.ext_getElem (h1.trans h2.symm)
  intro j hj1 hj2
  have hj : j < 12 := by omega
  have hcell := congrArg (fun l : List Nat => l[j]?) htails
  simp only [List.getElem?_map, List.getElem?_range, hj, if_pos,
    Option.map_some] at hcell
  have hcell2 : (key.getD j 0 + n1.getD j 0) % 256 =
      (key.getD j 0 + n2.getD j 0) % 256 := by
    simpa using hcell
  have hmix : n1.getD j 0 = n2.getD j 0 := by
    have hx : n1.getD j 0 < 256 := hb1 _ (by
      rw [List.getD_eq_getElem n1 0 (by omega)]
      exact List.getElem_mem (by omega))
    have hy : n2.getD j 0 < 256 := hb2 _ (by
      rw [List.getD_eq_getElem n2 0 (by omega)]
      exact List.getElem_mem (by omega))
    exact mod256_inj _ _ hx hy (Nat.ModEq.add_left_cancel' _ hcell2)
  rw [← List.getD_eq_getElem n1 0 hj1, ← List.getD_eq_getElem n2 0 hj2]
  exact hmix

/-- Decryption of a faithfully sealed triple succeeds and returns the
plaintext. -/
theorem decrypt_encrypt (key nonce data : List Nat) (hk : key.length = 32)
    (hbn : ByteList nonce) (hbd : ByteList data) :
    decrypt (hexEncode (xorKs key nonce 0 data)) key (hexEncode nonce)
      (hexEncode (tagOf key nonce (xorKs key nonce 0 data))) = .ok data := by
  unfold decrypt
  rw [hexDecode_hexEncode nonce hbn,
    hexDecode_hexEncode _ (xorKs_byteList key nonce data 0 hbd),
    hexDecode_hexEncode _ (tagOf_byteList key nonce (xorKs key nonce 0 data))]
  simp [hk, xorKs_xorKs]

/-- Decryption fails with the `DecryptionError` of `decrypt` whenever the
decoded tag disagrees with the modelled tag of the decoded ciphertext. -/
theorem decrypt_tag_ne (ct : String) (key : List Nat) (nonce tag : String)
    (h : hexDecode tag ≠ tagOf key (hexDecode nonce) (hexDecode ct)) :
    decrypt ct key nonce tag =
      .error (.decryptionError "Decryption failed: ciphertext or tag may be tampered") := by
  unfold decrypt
  simp [h]

/-! ## Lemmas about the JSON serialization -/

theorem decNat_encNat (n : Nat) : ∀ rest, decNat (encNat n ++ rest) = some (n, rest) := by
  induction n using Nat.strong_induction_on with
  | _ n ih =>
    intro rest
    rw [encNat]
    by_cases h : n = 0
    · subst h
      simp [decNat]
    · rw [dif_neg h]
      have hm : n % 255 < 255 := Nat.mod_lt _ (by norm_num)
      simp only [List.cons_append, decNat]
      rw [if_neg (by omega), if_pos hm]
      simp only [List.append_eq,
        ih (n / 255) (Nat.div_lt_self (Nat.pos_of_ne_zero h) (by norm_num)) rest]
      simp [Nat.mod_add_div]

theorem decInt_encInt (i : Int) (rest : List Nat) :
    decInt (encInt i ++ rest) = some (i, rest) := by
  unfold encInt
  by_cases h : 0 ≤ i
  · rw [if_pos h]
    show decInt (0 :: (encNat i.toNat ++ rest)) = some (i, rest)
    simp only [decInt]
    rw [decNat_encNat]
    simp [Int.toNat_of_nonneg h]
  · rw [if_neg h]
    show decInt (1 :: (encNat (-i).toNat ++ rest)) = some (i, rest)
    simp only [decInt]
    rw [decNat_encNat]
    simp only [Option.some.injEq, Prod.mk.injEq]
    exact ⟨by omega, trivial⟩

theorem decChars_enc (cs : List Char) :
    ∀ rest, decChars cs.length ((cs.map fun c => encNat c.toNat).flatten ++ rest) =
      some (cs, rest) := by
  induction cs with
  | nil => intro rest; simp [decChars]
  | cons c cs ih =>
    intro rest
    simp only [List.map_cons, List.flatten_cons, List.length_cons,
      List.append_assoc]
    simp only [decChars]
    rw [decNat_encNat]
    simp [ih rest, Char.ofNat_toNat]

theorem decString_encString (s : String) (rest : List Nat) :
    decString (encString s ++ rest) = some (s, rest) := by
  unfold encString decString
  rw [List.append_assoc, decNat_encNat]
  have h := decChars_enc s.data rest
  simp only [h]

/-! Depth of a JSON value: the fuel needed by the decoder. -/

mutual

/-- Nesting depth of a JSON value. -/
def depthJson : Json → Nat
  | .arr xs => depthList xs + 1
  | .obj fs => depthFields fs + 1
  | _ => 1

/-- Largest nesting depth of a list of JSON values. -/
def depthList : List Json → Nat
  | [] => 0
  | x :: xs => max (depthJson x) (depthList xs)

/-- Largest nesting depth among the values of a list of object fields. -/
def depthFields : List (String × Json) → Nat
  | [] => 0
  | (_, v) :: fs => max (depthJson v) (depthFields fs)

end

theorem depthJson_pos (j : Json) : 1 ≤ depthJson j := by
  cases j <;> simp [depthJson]

mutual

theorem decJson_encJson (j : Json) : ∀ fuel rest, depthJson j ≤ fuel →
    decJson fuel (encJson j ++ rest) = some (j, rest) := by
  intro fuel rest h
  have h1 : 1 ≤ depthJson j := depthJson_pos j
  obtain ⟨f, rfl⟩ : ∃ f, fuel = f + 1 := ⟨fuel - 1, by omega⟩
  cases j with
  | null => simp [encJson, decJson]
  | bool b => cases b <;> simp [encJson, decJson]
  | num i =>
    simp only [encJson, List.cons_append, decJson]
    rw [decInt_encInt]
  | str s =>
    simp only [encJson, List.cons_append, decJson]
    rw [decString_encString]
  | arr xs =>
    have hd : depthList xs ≤ f := by
      simp only [depthJson] at h
      omega
    simp only [encJson, List.cons_append, List.append_assoc, decJson]
    rw [decNat_encNat]
    simp [decJsonList_encJsonList xs f rest hd]
  | obj fs =>
    have hd : depthFields fs ≤ f := by
      simp only [depthJson] at h
      omega
    simp only [encJson, List.cons_append, List.append_assoc, decJson]
    rw [decNat_encNat]
    simp [decJsonFields_encJsonFields fs f rest hd]

theorem decJsonList_encJsonList (xs : List Json) : ∀ fuel rest, depthList xs ≤ fuel →
    decJsonList fuel xs.length (encJsonList xs ++ rest) = some (xs, rest) := by
  intro fuel rest h
  cases xs with
  | nil => simp [encJsonList, decJsonList]
  | cons x xs =>
    have hx : depthJson x ≤ fuel := by
      simp only [depthList] at h
      omega
    have hxs : depthList xs ≤ fuel := by
      simp only [depthList] at h
      omega
    simp only [encJsonList, List.append_assoc, List.length_cons, decJsonList]
    rw [decJson_encJson x fuel _ hx]
    simp [decJsonList_encJsonList xs fuel rest hxs]

theorem decJsonFields_encJsonFields (fs : List (String × Json)) :
    ∀ fuel rest, depthFields fs ≤ fuel →
      decJsonFields fuel fs.length (encJsonFields fs ++ rest) = some (fs, rest) := by
  intro fuel rest h
  cases fs with
  | nil => simp [encJsonFields, decJsonFields]
  | cons kv fs =>
    obtain ⟨k, v⟩ := kv
    have hv : depthJson v ≤ fuel := by
      simp only [depthFields] at h
      omega
    have hfs : depthFields fs ≤ fuel := by
      simp only [depthFields] at h
      omega
    simp only [encJsonFields, List.append_assoc, List.length_cons, decJsonFields]
    rw [decString_encString]
    simp [decJson_encJson v fuel _ hv,
      decJsonFields_encJsonFields fs fuel rest hfs]

end

mutual

theorem depthJson_le (j : Json) : depthJson j ≤ (encJson j).length := by
  cases j with
  | null => simp [depthJson, encJson]
  | bool b => cases b <;> simp [depthJson, encJson]
  | num i => simp [depthJson, encJson]
  | str s => simp [depthJson, encJson]
  | arr xs =>
    have h := depthList_le xs
    simp only [depthJson, encJson, List.length_cons, List.length_append]
    omega
  | obj fs =>
    have h := depthFields_le fs
    simp only [depthJson, encJson, List.length_cons, List.length_append]
    omega

theorem depthList_le (xs : List Json) : depthList xs ≤ (encJsonList xs).length := by
  cases xs with
  | nil => simp [depthList, encJsonList]
  | cons x xs =>
    have h1 := depthJson_le x
    have h2 := depthList_le xs
    simp only [depthList, encJsonList, List.length_append]
    omega

theorem depthFields_le (fs : List (String × Json)) :
    depthFields fs ≤ (encJsonFields fs).length := by
  cases fs with
  | nil => simp [depthFields, encJsonFields]
  | cons kv fs =>
    obtain ⟨k, v⟩ := kv
    have h1 := depthJson_le v
    have h2 := depthFields_le fs
    simp only [depthFields, encJsonFields, List.length_append]
    omega

end

/-- The modelled parser inverts the modelled serializer. -/
theorem jsonParse_jsonStringify (j : Json) : jsonParse (jsonStringify j) = some j := by
  unfold jsonParse jsonStringify
  have h := decJson_encJson j ((encJson j).length + 1) []
    (le_trans (depthJson_le j) (by omega))
  rw [List.append_nil] at h
  rw [h]

theorem encJson_ne_nil (j : Json) : encJson j ≠ [] := by
  cases j with
  | null => simp [encJson]
  | bool b => cases b <;> simp [encJson]
  | num i => simp [encJson]
  | str s => simp [encJson]
  | arr xs => simp [encJson]
  | obj fs => simp [encJson]

/-! Byte bounds of the serializer. -/

theorem byteList_append (l1 l2 : List Nat) (h1 : ByteList l1) (h2 : ByteList l2) :
    ByteList (l1 ++ l2) := by
  intro b hb
  rcases List.mem_append.mp hb with hb | hb
  · exact h1 b hb
  · exact h2 b hb

theorem encNat_byteList (n : Nat) : ByteList (encNat n) := by
  induction n using Nat.strong_induction_on with
  | _ n ih =>
    rw [encNat]
    by_cases h : n = 0
    · rw [dif_pos h]
      intro b hb
      simp only [List.mem_singleton] at hb
      omega
    · rw [dif_neg h]
      intro b hb
      simp only [List.mem_cons] at hb
      rcases hb with hb | hb
      · have := Nat.mod_lt n (show 0 < 255 by norm_num)
        omega
      · exact ih (n / 255) (Nat.div_lt_self (Nat.pos_of_ne_zero h) (by norm_num)) b hb

theorem encInt_byteList (i : Int) : ByteList (encInt i) := by
  unfold encInt
  by_cases h : 0 ≤ i
  · rw [if_pos h]
    intro b hb
    rcases List.mem_cons.mp hb with hb | hb
    · omega
    · exact encNat_byteList _ b hb
  · rw [if_neg h]
    intro b hb
    rcases List.mem_cons.mp hb with hb | hb
    · omega
    · exact encNat_byteList _ b hb

theorem encString_byteList (s : String) : ByteList (encString s) := by
  unfold encString
  apply byteList_append _ _ (encNat_byteList _)
  intro b hb
  rcases List.mem_flatten.mp hb with ⟨l, hl, hbl⟩
  rcases List.mem_map.mp hl with ⟨c, _, hc⟩
  rw [← hc] at hbl
  exact encNat_byteList _ b hbl

mutual

theorem encJson_byteList (j : Json) : ByteList (encJson j) := by
  cases j with
  | null => intro b hb; simp only [encJson, List.mem_singleton] at hb; omega
  | bool b0 =>
    cases b0 <;>
      (intro b hb; simp only [encJson, List.mem_singleton] at hb; omega)
  | num i =>
    intro b hb
    rcases List.mem_cons.mp hb with hb | hb
    · omega
    · exact encInt_byteList i b hb
  | str s =>
    intro b hb
    rcases List.mem_cons.mp hb with hb | hb
    · omega
    · exact encString_byteList s b hb
  | arr xs =>
    intro b hb
    rcases List.mem_cons.mp hb with hb | hb
    · omega
    · exact byteList_append _ _ (encNat_byteList _) (encJsonList_byteList xs) b hb
  | obj fs =>
    intro b hb
    rcases List.mem_cons.mp hb with hb | hb
    · omega
    · exact byteList_append _ _ (encNat_byteList _) (encJsonFields_byteList fs) b hb

theorem encJsonList_byteList (xs : List Json) : ByteList (encJsonList xs) := by
  cases xs with
  | nil => intro b hb; simp [encJsonList] at hb
  | cons x xs =>
    exact byteList_append _ _ (encJson_byteList x) (encJsonList_byteList xs)

theorem encJsonFields_byteList (fs : List (String × Json)) :
    ByteList (encJsonFields fs) := by
  cases fs with
  | nil => intro b hb; simp [encJsonFields] at hb
  | cons kv fs =>
    obtain ⟨k, v⟩ := kv
    show ByteList (encString k ++ encJson v ++ encJsonFields fs)
    exact byteList_append _ _
      (byteList_append _ _ (encString_byteList k) (encJson_byteList v))
      (encJsonFields_byteList fs)

end

/-! ## Orchestration lemmas for the envelope codec -/

/-- After the six field validations succeed, `decryptTransaction` is the
unwrap / decrypt / parse pipeline. -/
theorem decryptTransaction_unfold (mk : List Nat) (r : TxSecureRecord)
    (h1 : validateNonce r.payload_nonce "payload_nonce" = .ok ())
    (h2 : validateTag r.payload_tag "payload_tag" = .ok ())
    (h3 : validateCipherText r.payload_ct "payload_ct" = .ok ())
    (h4 : validateNonce r.dek_wrap_nonce "dek_wrap_nonce" = .ok ())
    (h5 : validateTag r.dek_wrap_tag "dek_wrap_tag" = .ok ())
    (h6 : validateCipherText r.dek_wrapped "dek_wrapped" = .ok ()) :
    decryptTransaction mk r =
      match decrypt r.dek_wrapped mk r.dek_wrap_nonce r.dek_wrap_tag with
      | .error e => .error e
      | .ok dek =>
        match decrypt r.payload_ct dek r.payload_nonce r.payload_tag with
        | .error e => .error e
        | .ok payloadBuffer =>
          match jsonParse payloadBuffer with
          | none => .error (.decryptionError "Decryption failed: invalid JSON")
          | some payload =>
            .ok { partyId := r.partyId, payload := payload,
                  createdAt := r.createdAt } := by
  unfold decryptTransaction
  simp only [h1, h2, h3, h4, h5, h6]

/-- Every error of `decrypt` is the one `DecryptionError`. -/
theorem decrypt_error_msg (ct : String) (key : List Nat) (nonce tag : String)
    (e : CryptoError) (h : decrypt ct key nonce tag = .error e) :
    e = .decryptionError "Decryption failed: ciphertext or tag may be tampered" := by
  unfold decrypt at h
  dsimp only at h
  split at h
  · cases h
  · cases h
    rfl

theorem xorKs_ne_nil (key nonce : List Nat) (i : Nat) (bs : List Nat)
    (h : bs ≠ []) : xorKs key nonce i bs ≠ [] := by
  intro hx
  apply h
  have := xorKs_length key nonce i bs
  rw [hx] at this
  exact List.length_eq_zero.mp this.symm

/-- The sealed-record shape: decryption of any record carrying a faithfully
sealed payload and wrapped DEK succeeds and returns the payload, whatever
its `id`, `partyId`, `createdAt`, `alg` and `mk_version` fields hold. -/
theorem decryptTransaction_sealed (mk dek pn dn : List Nat) (payload : Json)
    (hmk : mk.length = 32) (hdek : dek.length = 32) (hdekB : ByteList dek)
    (hpn : pn.length = 12) (hpnB : ByteList pn)
    (hdn : dn.length = 12) (hdnB : ByteList dn)
    (idv partyId createdAt alg : String) (mkv : Int) :
    decryptTransaction mk
      { id := idv, partyId := partyId, createdAt := createdAt,
        payload_nonce := hexEncode pn,
        payload_ct := hexEncode (xorKs dek pn 0 (jsonStringify payload)),
        payload_tag := hexEncode (tagOf dek pn (xorKs dek pn 0 (jsonStringify payload))),
        dek_wrap_nonce := hexEncode dn,
        dek_wrapped := hexEncode (xorKs mk dn 0 dek),
        dek_wrap_tag := hexEncode (tagOf mk dn (xorKs mk dn 0 dek)),
        alg := alg, mk_version := mkv } =
      .ok { partyId := partyId, payload := payload, createdAt := createdAt } := by
  have hctP : ByteList (xorKs dek pn 0 (jsonStringify payload)) :=
    xorKs_byteList dek pn _ 0 (encJson_byteList payload)
  have hctD : ByteList (xorKs mk dn 0 dek) := xorKs_byteList mk dn dek 0 hdekB
  have hctPne : xorKs dek pn 0 (jsonStringify payload) ≠ [] :=
    xorKs_ne_nil dek pn 0 _ (encJson_ne_nil payload)
  have hctDne : xorKs mk dn 0 dek ≠ [] := by
    intro hx
    have := xorKs_length mk dn 0 dek
    rw [hx, hdek] at this
    simp at this
  rw [decryptTransaction_unfold mk _
    (validateNonce_hexEncode pn _ hpnB hpn)
    (validateTag_hexEncode _ _ (tagOf_byteList dek pn _) (tagOf_length dek pn _))
    (validateCipherText_hexEncode _ _ hctP hctPne)
    (validateNonce_hexEncode dn _ hdnB hdn)
    (validateTag_hexEncode _ _ (tagOf_byteList mk dn _) (tagOf_length mk dn _))
    (validateCipherText_hexEncode _ _ hctD hctDne)]
  have hdw := decrypt_encrypt mk dn dek hmk hdnB hdekB
  have hpw := decrypt_encrypt dek pn (jsonStringify payload) hdek hpnB
    (encJson_byteList payload)
  simp only [hdw, hpw, jsonParse_jsonStringify]

/-! ## Tampering lemmas -/

/-- Flip bit `b` of byte `i` of a byte list (the modelled form of flipping
one bit of a hex-encoded field). -/
def flipByteBit (bs : List Nat) (i b : Nat) : List Nat :=
  bs.set i (bs.getD i 0 ^^^ 2 ^ b)

theorem pow2_lt_256 (b : Nat) (hb : b < 8) : 2 ^ b < 256 := by
  have h := Nat.pow_lt_pow_right (show 1 < 2 by norm_num) hb
  omega

theorem xor_pow2_ne (x b : Nat) : x ^^^ 2 ^ b ≠ x := by
  intro h
  have h2 := congrArg (fun z => z ^^^ x) h
  simp only [Nat.xor_self] at h2
  rw [Nat.xor_comm x (2 ^ b), Nat.xor_cancel_right] at h2
  have := pow_pos (show 0 < 2 by norm_num) b
  omega

theorem getD_lt_256 (l : List Nat) (i : Nat) (h : ByteList l) (hi : i < l.length) :
    l.getD i 0 < 256 := by
  apply h
  rw [List.getD_eq_getElem l 0 hi]
  exact List.getElem_mem hi

theorem byteList_set (l : List Nat) (i y : Nat) (hl : ByteList l) (hy : y < 256) :
    ByteList (l.set i y) := by
  intro b hb
  rcases List.mem_or_eq_of_mem_set hb with hb | hb
  · exact hl b hb
  · omega

theorem set_ne (l : List Nat) (i y : Nat) (hi : i < l.length)
    (hne : y ≠ l.getD i 0) : l.set i y ≠ l := by
  intro h
  apply hne
  rw [set_decomp l i hi y] at h
  conv at h =>
    rhs
    rw [self_decomp 0 l i hi]
  have h2 := List.append_cancel_left h
  simp only [List.cons.injEq] at h2
  exact h2.1

/-- The single decryption failure value of the model. -/
def tamperError : Except CryptoError DecryptedTx :=
  .error (.decryptionError "Decryption failed: ciphertext or tag may be tampered")

/-- Tampered payload ciphertext: any replacement whose modelled tag
disagrees with the stored tag makes decryption fail. -/
theorem tampered_payload_ct (mk dek pn dn : List Nat) (payload : Json)
    (hmk : mk.length = 32) (hdek : dek.length = 32) (hdekB : ByteList dek)
    (hpn : pn.length = 12) (hpnB : ByteList pn)
    (hdn : dn.length = 12) (hdnB : ByteList dn)
    (idv partyId createdAt alg : String) (mkv : Int)
    (ct2 : List Nat) (hctB : ByteList ct2) (hctne : ct2 ≠ [])
    (hmm : tagOf dek pn ct2 ≠ tagOf dek pn (xorKs dek pn 0 (jsonStringify payload))) :
    decryptTransaction mk
      { id := idv, partyId := partyId, createdAt := createdAt,
        payload_nonce := hexEncode pn,
        payload_ct := hexEncode ct2,
        payload_tag := hexEncode (tagOf dek pn (xorKs dek pn 0 (jsonStringify payload))),
        dek_wrap_nonce := hexEncode dn,
        dek_wrapped := hexEncode (xorKs mk dn 0 dek),
        dek_wrap_tag := hexEncode (tagOf mk dn (xorKs mk dn 0 dek)),
        alg := alg, mk_version := mkv } = tamperError := by
  have hctD : ByteList (xorKs mk dn 0 dek) := xorKs_byteList mk dn dek 0 hdekB
  have hctDne : xorKs mk dn 0 dek ≠ [] := by
    intro hx
    have := xorKs_length mk dn 0 dek
    rw [hx, hdek] at this
    simp at this
  rw [decryptTransaction_unfold mk _
    (validateNonce_hexEncode pn _ hpnB hpn)
    (validateTag_hexEncode _ _ (tagOf_byteList dek pn _) (tagOf_length dek pn _))
    (validateCipherText_hexEncode _ _ hctB hctne)
    (validateNonce_hexEncode dn _ hdnB hdn)
    (validateTag_hexEncode _ _ (tagOf_byteList mk dn _) (tagOf_length mk dn _))
    (validateCipherText_hexEncode _ _ hctD hctDne)]
  have hdw := decrypt_encrypt mk dn dek hmk hdnB hdekB
  have hfail := decrypt_tag_ne (hexEncode ct2) dek (hexEncode pn)
    (hexEncode (tagOf dek pn (xorKs dek pn 0 (jsonStringify payload))))
    (by
      rw [hexDecode_hexEncode _ (tagOf_byteList dek pn _),
        hexDecode_hexEncode pn hpnB, hexDecode_hexEncode ct2 hctB]
      exact fun hc => hmm hc.symm)
  simp only [hdw, hfail, tamperError]

/-- Tampered payload tag: any different stored tag value makes decryption
fail. -/
theorem tampered_payload_tag (mk dek pn dn : List Nat) (payload : Json)
    (hmk : mk.length = 32) (hdek : dek.length = 32) (hdekB : ByteList dek)
    (hpn : pn.length = 12) (hpnB : ByteList pn)
    (hdn : dn.length = 12) (hdnB : ByteList dn)
    (idv partyId createdAt alg : String) (mkv : Int)
    (t2 : List Nat) (htB : ByteList t2) (htl : t2.length = 16)
    (hmm : t2 ≠ tagOf dek pn (xorKs dek pn 0 (jsonStringify payload))) :
    decryptTransaction mk
      { id := idv, partyId := partyId, createdAt := createdAt,
        payload_nonce := hexEncode pn,
        payload_ct := hexEncode (xorKs dek pn 0 (jsonStringify payload)),
        payload_tag := hexEncode t2,
        dek_wrap_nonce := hexEncode dn,
        dek_wrapped := hexEncode (xorKs mk dn 0 dek),
        dek_wrap_tag := hexEncode (tagOf mk dn (xorKs mk dn 0 dek)),
        alg := alg, mk_version := mkv } = tamperError := by
  have hctP : ByteList (xorKs dek pn 0 (jsonStringify payload)) :=
    xorKs_byteList dek pn _ 0 (encJson_byteList payload)
  have hctPne : xorKs dek pn 0 (jsonStringify payload) ≠ [] :=
    xorKs_ne_nil dek pn 0 _ (encJson_ne_nil payload)
  have hctD : ByteList (xorKs mk dn 0 dek) := xorKs_byteList mk dn dek 0 hdekB
  have hctDne : xorKs mk dn 0 dek ≠ [] := by
    intro hx
    have := xorKs_length mk dn 0 dek
    rw [hx, hdek] at this
    simp at this
  rw [decryptTransaction_unfold mk _
    (validateNonce_hexEncode pn _ hpnB hpn)
    (validateTag_hexEncode _ _ htB htl)
    (validateCipherText_hexEncode _ _ hctP hctPne)
    (validateNonce_hexEncode dn _ hdnB hdn)
    (validateTag_hexEncode _ _ (tagOf_byteList mk dn _) (tagOf_length mk dn _))
    (validateCipherText_hexEncode _ _ hctD hctDne)]
  have hdw := decrypt_encrypt mk dn dek hmk hdnB hdekB
  have hfail := decrypt_tag_ne
    (hexEncode (xorKs dek pn 0 (jsonStringify payload))) dek (hexEncode pn)
    (hexEncode t2)
    (by
      rw [hexDecode_hexEncode t2 htB, hexDecode_hexEncode pn hpnB,
        hexDecode_hexEncode _ hctP]
      exact hmm)
  simp only [hdw, hfail, tamperError]

/-- Tampered payload nonce: any different 12-byte nonce makes decryption
fail. -/
theorem tampered_payload_nonce (mk dek pn dn : List Nat) (payload : Json)
    (hmk : mk.length = 32) (hdek : dek.length = 32) (hdekB : ByteList dek)
    (hpn : pn.length = 12) (hpnB : ByteList pn)
    (hdn : dn.length = 12) (hdnB : ByteList dn)
    (idv partyId createdAt alg : String) (mkv : Int)
    (n2 : List Nat) (hnB : ByteList n2) (hnl : n2.length = 12) (hmm : n2 ≠ pn) :
    decryptTransaction mk
      { id := idv, partyId := partyId, createdAt := createdAt,
        payload_nonce := hexEncode n2,
        payload_ct := hexEncode (xorKs dek pn 0 (jsonStringify payload)),
        payload_tag := hexEncode (tagOf dek pn (xorKs dek pn 0 (jsonStringify payload))),
        dek_wrap_nonce := hexEncode dn,
        dek_wrapped := hexEncode (xorKs mk dn 0 dek),
        dek_wrap_tag := hexEncode (tagOf mk dn (xorKs mk dn 0 dek)),
        alg := alg, mk_version := mkv } = tamperError := by
  have hctP : ByteList (xorKs dek pn 0 (jsonStringify payload)) :=
    xorKs_byteList dek pn _ 0 (encJson_byteList payload)
  have hctPne : xorKs dek pn 0 (jsonStringify payload) ≠ [] :=
    xorKs_ne_nil dek pn 0 _ (encJson_ne_nil payload)
  have hctD : ByteList (xorKs mk dn 0 dek) := xorKs_byteList mk dn dek 0 hdekB
  have hctDne : xorKs mk dn 0 dek ≠ [] := by
    intro hx
    have := xorKs_length mk dn 0 dek
    rw [hx, hdek] at this
    simp at this
  rw [decryptTransaction_unfold mk _
    (validateNonce_hexEncode n2 _ hnB hnl)
    (validateTag_hexEncode _ _ (tagOf_byteList dek pn _) (tagOf_length dek pn _))
    (validateCipherText_hexEncode _ _ hctP hctPne)
    (validateNonce_hexEncode dn _ hdnB hdn)
    (validateTag_hexEncode _ _ (tagOf_byteList mk dn _) (tagOf_length mk dn _))
    (validateCipherText_hexEncode _ _ hctD hctDne)]
  have hdw := decrypt_encrypt mk dn dek hmk hdnB hdekB
  have hfail := decrypt_tag_ne
    (hexEncode (xorKs dek pn 0 (jsonStringify payload))) dek (hexEncode n2)
    (hexEncode (tagOf dek pn (xorKs dek pn 0 (jsonStringify payload))))
    (by
      rw [hexDecode_hexEncode _ (tagOf_byteList dek pn _),
        hexDecode_hexEncode n2 hnB, hexDecode_hexEncode _ hctP]
      exact tagOf_ne_nonce dek pn n2 _ hpn hnl hpnB hnB (fun hc => hmm hc.symm))
  simp only [hdw, hfail, tamperError]

/-- Tampered wrapped DEK: any replacement whose modelled tag disagrees
with the stored wrap tag makes decryption fail at the unwrap step. -/
theorem tampered_dek_wrapped (mk dek pn dn : List Nat) (payload : Json)
    (hdek : dek.length = 32) (hdekB : ByteList dek)
    (hpn : pn.length = 12) (hpnB : ByteList pn)
    (hdn : dn.length = 12) (hdnB : ByteList dn)
    (idv partyId createdAt alg : String) (mkv : Int)
    (d2 : List Nat) (hdB : ByteList d2) (hdne : d2 ≠ [])
    (hmm : tagOf mk dn d2 ≠ tagOf mk dn (xorKs mk dn 0 dek)) :
    decryptTransaction mk
      { id := idv, partyId := partyId, createdAt := createdAt,
        payload_nonce := hexEncode pn,
        payload_ct := hexEncode (xorKs dek pn 0 (jsonStringify payload)),
        payload_tag := hexEncode (tagOf dek pn (xorKs dek pn 0 (jsonStringify payload))),
        dek_wrap_nonce := hexEncode dn,
        dek_wrapped := hexEncode d2,
        dek_wrap_tag := hexEncode (tagOf mk dn (xorKs mk dn 0 dek)),
        alg := alg, mk_version := mkv } = tamperError := by
  have hctP : ByteList (xorKs dek pn 0 (jsonStringify payload)) :=
    xorKs_byteList dek pn _ 0 (encJson_byteList payload)
  have hctPne : xorKs dek pn 0 (jsonStringify payload) ≠ [] :=
    xorKs_ne_nil dek pn 0 _ (encJson_ne_nil payload)
  rw [decryptTransaction_unfold mk _
    (validateNonce_hexEncode pn _ hpnB hpn)
    (validateTag_hexEncode _ _ (tagOf_byteList dek pn _) (tagOf_length dek pn _))
    (validateCipherText_hexEncode _ _ hctP hctPne)
    (validateNonce_hexEncode dn _ hdnB hdn)
    (validateTag_hexEncode _ _ (tagOf_byteList mk dn _) (tagOf_length mk dn _))
    (validateCipherText_hexEncode _ _ hdB hdne)]
  have hfail := decrypt_tag_ne (hexEncode d2) mk (hexEncode dn)
    (hexEncode (tagOf mk dn (xorKs mk dn 0 dek)))
    (by
      rw [hexDecode_hexEncode _ (tagOf_byteList mk dn _),
        hexDecode_hexEncode dn hdnB, hexDecode_hexEncode d2 hdB]
      exact fun hc => hmm hc.symm)
  simp only [hfail, tamperError]

/-- Tampered DEK wrap tag: any different stored wrap tag makes decryption
fail at the unwrap step. -/
theorem tampered_dek_wrap_tag (mk dek pn dn : List Nat) (payload : Json)
    (hdek : dek.length = 32) (hdekB : ByteList dek)
    (hpn : pn.length = 12) (hpnB : ByteList pn)
    (hdn : dn.length = 12) (hdnB : ByteList dn)
    (idv partyId createdAt alg : String) (mkv : Int)
    (t2 : List Nat) (htB : ByteList t2) (htl : t2.length = 16)
    (hmm : t2 ≠ tagOf mk dn (xorKs mk dn 0 dek)) :
    decryptTransaction mk
      { id := idv, partyId := partyId, createdAt := createdAt,
        payload_nonce := hexEncode pn,
        payload_ct := hexEncode (xorKs dek pn 0 (jsonStringify payload)),
        payload_tag := hexEncode (tagOf dek pn (xorKs dek pn 0 (jsonStringify payload))),
        dek_wrap_nonce := hexEncode dn,
        dek_wrapped := hexEncode (xorKs mk dn 0 dek),
        dek_wrap_tag := hexEncode t2,
        alg := alg, mk_version := mkv } = tamperError := by
  have hctP : ByteList (xorKs dek pn 0 (jsonStringify payload)) :=
    xorKs_byteList dek pn _ 0 (encJson_byteList payload)
  have hctPne : xorKs dek pn 0 (jsonStringify payload) ≠ [] :=
    xorKs_ne_nil dek pn 0 _ (encJson_ne_nil payload)
  have hctD : ByteList (xorKs mk dn 0 dek) := xorKs_byteList mk dn dek 0 hdekB
  have hctDne : xorKs mk dn 0 dek ≠ [] := by
    intro hx
    have := xorKs_length mk dn 0 dek
    rw [hx, hdek] at this
    simp at this
  rw [decryptTransaction_unfold mk _
    (validateNonce_hexEncode pn _ hpnB hpn)
    (validateTag_hexEncode _ _ (tagOf_byteList dek pn _) (tagOf_length dek pn _))
    (validateCipherText_hexEncode _ _ hctP hctPne)
    (validateNonce_hexEncode dn _ hdnB hdn)
    (validateTag_hexEncode _ _ htB htl)
    (validateCipherText_hexEncode _ _ hctD hctDne)]
  have hfail := decrypt_tag_ne (hexEncode (xorKs mk dn 0 dek)) mk (hexEncode dn)
    (hexEncode t2)
    (by
      rw [hexDecode_hexEncode t2 htB, hexDecode_hexEncode dn hdnB,
        hexDecode_hexEncode _ hctD]
      exact hmm)
  simp only [hfail, tamperError]

/-- Tampered DEK wrap nonce: any different 12-byte nonce makes decryption
fail at the unwrap step. -/
theorem tampered_dek_wrap_nonce (mk dek pn dn : List Nat) (payload : Json)
    (hdek : dek.length = 32) (hdekB : ByteList dek)
    (hpn : pn.length = 12) (hpnB : ByteList pn)
    (hdn : dn.length = 12) (hdnB : ByteList dn)
    (idv partyId createdAt alg : String) (mkv : Int)
    (n2 : List Nat) (hnB : ByteList n2) (hnl : n2.length = 12) (hmm : n2 ≠ dn) :
    decryptTransaction mk
      { id := idv, partyId := partyId, createdAt := createdAt,
        payload_nonce := hexEncode pn,
        payload_ct := hexEncode (xorKs dek pn 0 (jsonStringify payload)),
        payload_tag := hexEncode (tagOf dek pn (xorKs dek pn 0 (jsonStringify payload))),
        dek_wrap_nonce := hexEncode n2,
        dek_wrapped := hexEncode (xorKs mk dn 0 dek),
        dek_wrap_tag := hexEncode (tagOf mk dn (xorKs mk dn 0 dek)),
        alg := alg, mk_version := mkv } = tamperError := by
  have hctP : ByteList (xorKs dek pn 0 (jsonStringify payload)) :=
    xorKs_byteList dek pn _ 0 (encJson_byteList payload)
  have hctPne : xorKs dek pn 0 (jsonStringify payload) ≠ [] :=
    xorKs_ne_nil dek pn 0 _ (encJson_ne_nil payload)
  have hctD : ByteList (xorKs mk dn 0 dek) := xorKs_byteList mk dn dek 0 hdekB
  have hctDne : xorKs mk dn 0 dek ≠ [] := by
    intro hx
    have := xorKs_length mk dn 0 dek
    rw [hx, hdek] at this
    simp at this
  rw [decryptTransaction_unfold mk _
    (validateNonce_hexEncode pn _ hpnB hpn)
    (validateTag_hexEncode _ _ (tagOf_byteList dek pn _) (tagOf_length dek pn _))
    (validateCipherText_hexEncode _ _ hctP hctPne)
    (validateNonce_hexEncode n2 _ hnB hnl)
    (validateTag_hexEncode _ _ (tagOf_byteList mk dn _) (tagOf_length mk dn _))
    (validateCipherText_hexEncode _ _ hctD hctDne)]
  have hfail := decrypt_tag_ne (hexEncode (xorKs mk dn 0 dek)) mk (hexEncode n2)
    (hexEncode (tagOf mk dn (xorKs mk dn 0 dek)))
    (by
      rw [hexDecode_hexEncode _ (tagOf_byteList mk dn _),
        hexDecode_hexEncode n2 hnB, hexDecode_hexEncode _ hctD]
      exact tagOf_ne_nonce mk dn n2 _ hdn hnl hdnB hnB (fun hc => hmm hc.symm))
  simp only [hfail, tamperError]

/-! ## The validation sequence as a list of checks

`recordCheckList` lists the validation steps of `validateRecord` in the
source's order, for stating the short-circuit discipline.  (The spec's
§4.4 lists the steps grouped as nonces, tags, ciphertexts instead.) -/

/-- The algorithm gate of `validateRecord`. -/
def checkAlg (r : TxSecureRecord) : Except CryptoError Unit :=
  if r.alg ≠ "AES-256-GCM" then .error (.validationError "Invalid algorithm")
  else .ok ()

/-- The master key version gate of `validateRecord`. -/
def checkMkVersion (r : TxSecureRecord) : Except CryptoError Unit :=
  if r.mk_version ≠ 1 then .error (.validationError "Invalid master key version")
  else .ok ()

/-- The eight validation steps of `validateRecord`, in source order. -/
def recordCheckList (r : TxSecureRecord) : List (Except CryptoError Unit) :=
  [validateNonce r.payload_nonce "payload_nonce",
   validateTag r.payload_tag "payload_tag",
   validateCipherText r.payload_ct "payload_ct",
   validateNonce r.dek_wrap_nonce "dek_wrap_nonce",
   validateTag r.dek_wrap_tag "dek_wrap_tag",
   validateCipherText r.dek_wrapped "dek_wrapped",
   checkAlg r,
   checkMkVersion r]

/-- `validateRecord` returns the error of the first failing check of
`recordCheckList`. -/
theorem validateRecord_first_error (r : TxSecureRecord) (i : Nat) (e : CryptoError)
    (hpre : ∀ j, j < i → (recordCheckList r).getD j (.ok ()) = .ok ())
    (hi : (recordCheckList r).getD i (.ok ()) = .error e) :
    validateRecord r = .error e := by
  have hilt : i < 8 := by
    by_contra hge
    rw [List.getD_eq_default _ _ (by simp [recordCheckList]; omega)] at hi
    cases hi
  have h0 := fun h => hpre 0 h
  have h1 := fun h => hpre 1 h
  have h2 := fun h => hpre 2 h
  have h3 := fun h => hpre 3 h
  have h4 := fun h => hpre 4 h
  have h5 := fun h => hpre 5 h
  have h6 := fun h => hpre 6 h
  simp only [recordCheckList, List.getD_cons_zero, List.getD_cons_succ] at h0 h1 h2 h3 h4 h5 h6
  unfold validateRecord
  interval_cases i
  all_goals simp only [recordCheckList, List.getD_cons_zero, List.getD_cons_succ] at hi
  · simp only [hi]
  · simp only [h0 (by omega), hi]
  · simp only [h0 (by omega), h1 (by omega), hi]
  · simp only [h0 (by omega), h1 (by omega), h2 (by omega), hi]
  · simp only [h0 (by omega), h1 (by omega), h2 (by omega), h3 (by omega), hi]
  · simp only [h0 (by omega), h1 (by omega), h2 (by omega), h3 (by omega),
      h4 (by omega), hi]
  · simp only [h0 (by omega), h1 (by omega), h2 (by omega), h3 (by omega),
      h4 (by omega), h5 (by omega)]
    unfold checkAlg at hi
    split at hi
    · cases hi
      rename_i halg
      rw [if_pos halg]
    · cases hi
  · simp only [h0 (by omega), h1 (by omega), h2 (by omega), h3 (by omega),
      h4 (by omega), h5 (by omega)]
    have halgOk := h6 (by omega)
    unfold checkAlg at halgOk
    unfold checkMkVersion at hi
    split at halgOk
    · cases halgOk
    · rename_i halg
      rw [if_neg halg]
      split at hi
      · cases hi
        rename_i hmk
        rw [if_pos hmk]
      · cases hi

/-- `decryptTransaction` returns the error of the first failing check
among its six field validations (the first six checks of
`recordCheckList`), before any decryption. -/
theorem decryptTransaction_first_error (mk : List Nat) (r : TxSecureRecord)
    (i : Nat) (e : CryptoError) (hi6 : i < 6)
    (hpre : ∀ j, j < i → (recordCheckList r).getD j (.ok ()) = .ok ())
    (hi : (recordCheckList r).getD i (.ok ()) = .error e) :
    decryptTransaction mk r = .error e := by
  have h0 := fun h => hpre 0 h
  have h1 := fun h => hpre 1 h
  have h2 := fun h => hpre 2 h
  have h3 := fun h => hpre 3 h
  have h4 := fun h => hpre 4 h
  simp only [recordCheckList, List.getD_cons_zero, List.getD_cons_succ] at h0 h1 h2 h3 h4
  unfold decryptTransaction
  interval_cases i
  all_goals simp only [recordCheckList, List.getD_cons_zero, List.getD_cons_succ] at hi
  · simp only [hi]
  · simp only [h0 (by omega), hi]
  · simp only [h0 (by omega), h1 (by omega), hi]
  · simp only [h0 (by omega), h1 (by omega), h2 (by omega), hi]
  · simp only [h0 (by omega), h1 (by omega), h2 (by omega), h3 (by omega), hi]
  · simp only [h0 (by omega), h1 (by omega), h2 (by omega), h3 (by omega),
      h4 (by omega), hi]

/-- `decryptTransaction` never reads `alg` or `mk_version`. -/
theorem decryptTransaction_alg_version_independent (mk : List Nat)
    (r : TxSecureRecord) (a : String) (m : Int) :
    decryptTransaction mk { r with alg := a, mk_version := m } =
      decryptTransaction mk r := by
  cases r
  rfl

/-! ## Non-canonical hex encodings -/

/-- On a list of hex digits, pairwise decoding yields one byte per two
characters, so an odd-length hex string loses its trailing digit. -/
theorem hexDecodeAux_length_valid :
    ∀ cs : List Char, (∀ c ∈ cs, (hexDigitVal? c).isSome) →
      (hexDecodeAux cs).length = cs.length / 2
  | [], _ => rfl
  | [_], _ => by simp [hexDecodeAux]
  | c1 :: c2 :: rest, h => by
    obtain ⟨v1, hv1⟩ := Option.isSome_iff_exists.mp (h c1 (by simp))
    obtain ⟨v2, hv2⟩ := Option.isSome_iff_exists.mp (h c2 (by simp))
    have ih := hexDecodeAux_length_valid rest (fun c hc => h c (by simp [hc]))
    simp only [hexDecodeAux, hv1, hv2, List.length_cons, ih]
    omega

/-- Decoded length of a valid hex string: two characters per byte,
rounding down. -/
theorem hexDecode_length_valid (s : String) (h : isValidHex s = true) :
    (hexDecode s).length = s.length / 2 := by
  unfold hexDecode
  have hall : ∀ c ∈ s.data, (hexDigitVal? c).isSome := by
    intro c hc
    exact List.all_eq_true.mp h c hc
  exact hexDecodeAux_length_valid s.data hall

/-- Appending one character to an even-length character list does not
change its pairwise hex decoding. -/
theorem hexDecodeAux_snoc (c : Char) :
    ∀ cs : List Char, cs.length % 2 = 0 →
      hexDecodeAux (cs ++ [c]) = hexDecodeAux cs
  | [], _ => rfl
  | [_], h => by simp at h
  | c1 :: c2 :: rest, h => by
    show hexDecodeAux (c1 :: c2 :: (rest ++ [c])) = hexDecodeAux (c1 :: c2 :: rest)
    have ih := hexDecodeAux_snoc c rest
      (by simp only [List.length_cons] at h; omega)
    simp only [hexDecodeAux, ih]

/-- Appending one hex digit to an even-length field neither changes its
decoding nor its validity. -/
theorem hexDecode_snoc (s : String) (c : Char) (heven : s.length % 2 = 0) :
    hexDecode (s ++ c.toString) = hexDecode s := by
  unfold hexDecode
  rw [String.data_append]
  exact hexDecodeAux_snoc c s.data heven

theorem isValidHex_snoc (s : String) (c : Char) (hc : (hexDigitVal? c).isSome) :
    isValidHex (s ++ c.toString) = isValidHex s := by
  unfold isValidHex
  rw [String.data_append, List.all_append]
  show (s.data.all _ && [c].all _) = _
  simp [hc]

/-- `decryptTransaction` does not distinguish a nonce field from the same
field with one hex digit appended (for an even-length field). -/
theorem decryptTransaction_payload_nonce_snoc (mk : List Nat)
    (r : TxSecureRecord) (c : Char) (hc : (hexDigitVal? c).isSome)
    (heven : r.payload_nonce.length % 2 = 0) :
    decryptTransaction mk { r with payload_nonce := r.payload_nonce ++ c.toString } =
      decryptTransaction mk r := by
  have hdec := hexDecode_snoc r.payload_nonce c heven
  have hval : validateNonce (r.payload_nonce ++ c.toString) "payload_nonce" =
      validateNonce r.payload_nonce "payload_nonce" := by
    unfold validateNonce
    rw [hdec, isValidHex_snoc r.payload_nonce c hc]
  have hdecr : ∀ ct k t, decrypt ct k (r.payload_nonce ++ c.toString) t =
      decrypt ct k r.payload_nonce t := by
    intro ct k t
    unfold decrypt
    rw [hdec]
  unfold decryptTransaction
  dsimp only
  rw [hval]
  simp only [hdecr]

/-! ## Concrete sample inputs for witnesses and counterexamples -/

/-- A concrete 32-byte master key. -/
def sampleMasterKey : List Nat := List.range 32

/-- A concrete 32-byte data encryption key. -/
def sampleDek : List Nat := (List.range 32).map fun n => 255 - n

/-- A concrete 12-byte payload nonce. -/
def samplePayloadNonce : List Nat := List.range 12

/-- A concrete 12-byte DEK wrap nonce. -/
def sampleDekNonce : List Nat := (List.range 12).map fun n => 100 + n

/-- A concrete JSON payload. -/
def samplePayload : Json := .obj [("amount", .num 1000), ("currency", .str "USD")]

/-- The record produced by `encryptTransaction` on the sample inputs. -/
def sampleRecord : TxSecureRecord :=
  encryptTransaction sampleMasterKey
    { partyId := "party-123", payload := samplePayload }
    sampleDek samplePayloadNonce sampleDekNonce "00ff" "2026-02-12T00:00:00Z"

/-! ## The claims -/

/-- Claim C1: for every JSON payload `P` and partyId `S`,
`decryptTransaction` applied to the record produced by
`encryptTransaction {partyId := S, payload := P}` succeeds and returns a
payload equal to `P` and a partyId equal to `S` (the randomness consumed
by `encryptTransaction` is passed explicitly: a 32-byte DEK and two
12-byte nonces). -/
theorem claim_C1_roundtrip (mk dek pn dn : List Nat) (payload : Json)
    (partyId idv createdAt : String)
    (hmk : mk.length = 32) (hdek : dek.length = 32) (hdekB : ByteList dek)
    (hpn : pn.length = 12) (hpnB : ByteList pn)
    (hdn : dn.length = 12) (hdnB : ByteList dn) :
    decryptTransaction mk
      (encryptTransaction mk { partyId := partyId, payload := payload }
        dek pn dn idv createdAt) =
      .ok { partyId := partyId, payload := payload, createdAt := createdAt } :=
  decryptTransaction_sealed mk dek pn dn payload hmk hdek hdekB hpn hpnB hdn hdnB
    idv partyId createdAt "AES-256-GCM" 1

/-- Witness for C1 at the concrete sample inputs. -/
theorem claim_C1_roundtrip_witness :
    (sampleMasterKey.length = 32 ∧ sampleDek.length = 32 ∧ ByteList sampleDek ∧
      samplePayloadNonce.length = 12 ∧ ByteList samplePayloadNonce ∧
      sampleDekNonce.length = 12 ∧ ByteList sampleDekNonce) ∧
    decryptTransaction sampleMasterKey
      (encryptTransaction sampleMasterKey
        { partyId := "party-123", payload := samplePayload }
        sampleDek samplePayloadNonce sampleDekNonce "00ff" "2026-02-12T00:00:00Z") =
      .ok { partyId := "party-123", payload := samplePayload,
            createdAt := "2026-02-12T00:00:00Z" } :=
  ⟨⟨by decide, by decide, by decide, by decide, by decide, by decide, by decide⟩,
   claim_C1_roundtrip sampleMasterKey sampleDek samplePayloadNonce sampleDekNonce
     samplePayload "party-123" "00ff" "2026-02-12T00:00:00Z"
     (by decide) (by decide) (by decide) (by decide) (by decide) (by decide) (by decide)⟩

/-- Claim C2: tamper detection.  For every record produced by
`encryptTransaction`, flipping any single bit of any byte of
`payload_ct`, `payload_tag`, `dek_wrapped` or `dek_wrap_tag` makes
`decryptTransaction` fail with the `DecryptionError` of the cipher; it
never returns a wrong plaintext. -/
theorem claim_C2_tamper_detection (mk dek pn dn : List Nat) (payload : Json)
    (partyId idv createdAt : String) (r : TxSecureRecord)
    (hr : r = encryptTransaction mk { partyId := partyId, payload := payload }
      dek pn dn idv createdAt)
    (hmk : mk.length = 32) (hdek : dek.length = 32) (hdekB : ByteList dek)
    (hpn : pn.length = 12) (hpnB : ByteList pn)
    (hdn : dn.length = 12) (hdnB : ByteList dn) :
    (∀ i b, i < (hexDecode r.payload_ct).length → b < 8 →
      decryptTransaction mk
        { r with payload_ct := hexEncode (flipByteBit (hexDecode r.payload_ct) i b) } =
        tamperError) ∧
    (∀ i b, i < (hexDecode r.payload_tag).length → b < 8 →
      decryptTransaction mk
        { r with payload_tag := hexEncode (flipByteBit (hexDecode r.payload_tag) i b) } =
        tamperError) ∧
    (∀ i b, i < (hexDecode r.dek_wrapped).length → b < 8 →
      decryptTransaction mk
        { r with dek_wrapped := hexEncode (flipByteBit (hexDecode r.dek_wrapped) i b) } =
        tamperError) ∧
    (∀ i b, i < (hexDecode r.dek_wrap_tag).length → b < 8 →
      decryptTransaction mk
        { r with dek_wrap_tag := hexEncode (flipByteBit (hexDecode r.dek_wrap_tag) i b) } =
        tamperError) := by
  subst hr
  have hctPB : ByteList (xorKs dek pn 0 (jsonStringify payload)) :=
    xorKs_byteList dek pn _ 0 (encJson_byteList payload)
  have hctDB : ByteList (xorKs mk dn 0 dek) := xorKs_byteList mk dn dek 0 hdekB
  have hPtag : ByteList (tagOf dek pn (xorKs dek pn 0 (jsonStringify payload))) :=
    tagOf_byteList dek pn _
  have hDtag : ByteList (tagOf mk dn (xorKs mk dn 0 dek)) := tagOf_byteList mk dn _
  have hectP : hexDecode (encryptTransaction mk
      { partyId := partyId, payload := payload } dek pn dn idv createdAt).payload_ct =
      xorKs dek pn 0 (jsonStringify payload) := hexDecode_hexEncode _ hctPB
  have hectT : hexDecode (encryptTransaction mk
      { partyId := partyId, payload := payload } dek pn dn idv createdAt).payload_tag =
      tagOf dek pn (xorKs dek pn 0 (jsonStringify payload)) := hexDecode_hexEncode _ hPtag
  have hectD : hexDecode (encryptTransaction mk
      { partyId := partyId, payload := payload } dek pn dn idv createdAt).dek_wrapped =
      xorKs mk dn 0 dek := hexDecode_hexEncode _ hctDB
  have hectDT : hexDecode (encryptTransaction mk
      { partyId := partyId, payload := payload } dek pn dn idv createdAt).dek_wrap_tag =
      tagOf mk dn (xorKs mk dn 0 dek) := hexDecode_hexEncode _ hDtag
  refine ⟨?_, ?_, ?_, ?_⟩
  · intro i b hi hb
    rw [hectP] at hi ⊢
    simp only [flipByteBit]
    have hy : (xorKs dek pn 0 (jsonStringify payload)).getD i 0 ^^^ 2 ^ b < 256 :=
      lt256_xor _ _ (getD_lt_256 _ i hctPB hi) (pow2_lt_256 b hb)
    exact tampered_payload_ct mk dek pn dn payload hmk hdek hdekB hpn hpnB hdn hdnB
      idv partyId createdAt "AES-256-GCM" 1 _
      (byteList_set _ i _ hctPB hy)
      (by
        intro hnil
        have hlen := congrArg List.length hnil
        rw [List.length_set] at hlen
        simp only [List.length_nil] at hlen
        omega)
      (tagOf_ne_set dek pn _ i _ hi hctPB hy (xor_pow2_ne _ b))
  · intro i b hi hb
    rw [hectT] at hi ⊢
    simp only [flipByteBit]
    have hy : (tagOf dek pn (xorKs dek pn 0 (jsonStringify payload))).getD i 0 ^^^ 2 ^ b < 256 :=
      lt256_xor _ _ (getD_lt_256 _ i hPtag hi) (pow2_lt_256 b hb)
    exact tampered_payload_tag mk dek pn dn payload hmk hdek hdekB hpn hpnB hdn hdnB
      idv partyId createdAt "AES-256-GCM" 1 _
      (byteList_set _ i _ hPtag hy)
      (by rw [List.length_set]; exact tagOf_length dek pn _)
      (set_ne _ i _ hi (xor_pow2_ne _ b))
  · intro i b hi hb
    rw [hectD] at hi ⊢
    simp only [flipByteBit]
    have hy : (xorKs mk dn 0 dek).getD i 0 ^^^ 2 ^ b < 256 :=
      lt256_xor _ _ (getD_lt_256 _ i hctDB hi) (pow2_lt_256 b hb)
    exact tampered_dek_wrapped mk dek pn dn payload hdek hdekB hpn hpnB hdn hdnB
      idv partyId createdAt "AES-256-GCM" 1 _
      (byteList_set _ i _ hctDB hy)
      (by
        intro hnil
        have hlen := congrArg List.length hnil
        rw [List.length_set] at hlen
        simp only [List.length_nil] at hlen
        omega)
      (tagOf_ne_set mk dn _ i _ hi hctDB hy (xor_pow2_ne _ b))
  · intro i b hi hb
    rw [hectDT] at hi ⊢
    simp only [flipByteBit]
    have hy : (tagOf mk dn (xorKs mk dn 0 dek)).getD i 0 ^^^ 2 ^ b < 256 :=
      lt256_xor _ _ (getD_lt_256 _ i hDtag hi) (pow2_lt_256 b hb)
    exact tampered_dek_wrap_tag mk dek pn dn payload hdek hdekB hpn hpnB hdn hdnB
      idv partyId createdAt "AES-256-GCM" 1 _
      (byteList_set _ i _ hDtag hy)
      (by rw [List.length_set]; exact tagOf_length mk dn _)
      (set_ne _ i _ hi (xor_pow2_ne _ b))

/-- Witness for C2: flipping bit 0 of byte 0 of each of the four fields
of the sample record makes decryption fail. -/
theorem claim_C2_tamper_detection_witness :
    (0 < (hexDecode sampleRecord.payload_ct).length ∧
      0 < (hexDecode sampleRecord.payload_tag).length ∧
      0 < (hexDecode sampleRecord.dek_wrapped).length ∧
      0 < (hexDecode sampleRecord.dek_wrap_tag).length ∧ (0 : Nat) < 8) ∧
    decryptTransaction sampleMasterKey
      { sampleRecord with
        payload_ct := hexEncode (flipByteBit (hexDecode sampleRecord.payload_ct) 0 0) } = tamperError ∧
    decryptTransaction sampleMasterKey
      { sampleRecord with
        payload_tag := hexEncode (flipByteBit (hexDecode sampleRecord.payload_tag) 0 0) } = tamperError ∧
    decryptTransaction sampleMasterKey
      { sampleRecord with
        dek_wrapped := hexEncode (flipByteBit (hexDecode sampleRecord.dek_wrapped) 0 0) } = tamperError ∧
    decryptTransaction sampleMasterKey
      { sampleRecord with
        dek_wrap_tag := hexEncode (flipByteBit (hexDecode sampleRecord.dek_wrap_tag) 0 0) } = tamperError := by
  have hctPB : ByteList (xorKs sampleDek samplePayloadNonce 0 (jsonStringify samplePayload)) :=
    xorKs_byteList sampleDek samplePayloadNonce _ 0 (encJson_byteList samplePayload)
  have hctDB : ByteList (xorKs sampleMasterKey sampleDekNonce 0 sampleDek) :=
    xorKs_byteList sampleMasterKey sampleDekNonce sampleDek 0 (by decide)
  have hlenP : 0 < (hexDecode sampleRecord.payload_ct).length := by
    show 0 < (hexDecode (hexEncode (xorKs sampleDek samplePayloadNonce 0
      (jsonStringify samplePayload)))).length
    rw [hexDecode_hexEncode _ hctPB, xorKs_length]
    exact List.length_pos.mpr (encJson_ne_nil samplePayload)
  have hlenT : 0 < (hexDecode sampleRecord.payload_tag).length := by
    show 0 < (hexDecode (hexEncode (tagOf sampleDek samplePayloadNonce
      (xorKs sampleDek samplePayloadNonce 0 (jsonStringify samplePayload))))).length
    rw [hexDecode_hexEncode _ (tagOf_byteList sampleDek samplePayloadNonce _),
      tagOf_length]
    omega
  have hlenD : 0 < (hexDecode sampleRecord.dek_wrapped).length := by
    show 0 < (hexDecode (hexEncode (xorKs sampleMasterKey sampleDekNonce 0 sampleDek))).length
    rw [hexDecode_hexEncode _ hctDB, xorKs_length]
    decide
  have hlenDT : 0 < (hexDecode sampleRecord.dek_wrap_tag).length := by
    show 0 < (hexDecode (hexEncode (tagOf sampleMasterKey sampleDekNonce
      (xorKs sampleMasterKey sampleDekNonce 0 sampleDek)))).length
    rw [hexDecode_hexEncode _ (tagOf_byteList sampleMasterKey sampleDekNonce _),
      tagOf_length]
    omega
  have h := claim_C2_tamper_detection sampleMasterKey sampleDek samplePayloadNonce
    sampleDekNonce samplePayload "party-123" "00ff" "2026-02-12T00:00:00Z"
    sampleRecord rfl (by decide) (by decide) (by decide) (by decide) (by decide)
    (by decide) (by decide)
  exact ⟨⟨hlenP, hlenT, hlenD, hlenDT, by decide⟩,
    h.1 0 0 hlenP (by decide),
    h.2.1 0 0 hlenT (by decide),
    h.2.2.1 0 0 hlenD (by decide),
    h.2.2.2 0 0 hlenDT (by decide)⟩

/-- Claim C3 counterexample: a record produced by `encryptTransaction`
whose `alg` and `mk_version` were changed to unsupported values is not
rejected by `decryptTransaction`; it decrypts normally, with no
`ValidationError`. -/
theorem claim_C3_counterexample :
    ({ sampleRecord with alg := "RSA", mk_version := 2 } : TxSecureRecord).alg ≠
      "AES-256-GCM" ∧
    decryptTransaction sampleMasterKey
      { sampleRecord with alg := "RSA", mk_version := 2 } =
      .ok { partyId := "party-123", payload := samplePayload,
            createdAt := "2026-02-12T00:00:00Z" } := by
  constructor
  · decide
  · exact decryptTransaction_sealed sampleMasterKey sampleDek samplePayloadNonce
      sampleDekNonce samplePayload (by decide) (by decide) (by decide) (by decide)
      (by decide) (by decide) (by decide)
      "00ff" "party-123" "2026-02-12T00:00:00Z" "RSA" 2

/-- Claim C3 amended: `decryptTransaction` validates the six cryptographic
fields before any decryption, failing with the first failing check's
`ValidationError`, but performs no `alg` or `mk_version` check at all: its
result is unchanged under arbitrary replacement of those two fields
(the gating lives only in `validateRecord`, which the HTTP layer calls
separately). -/
theorem claim_C3_amended (mk : List Nat) (r : TxSecureRecord) :
    (∀ (a : String) (m : Int),
      decryptTransaction mk { r with alg := a, mk_version := m } =
        decryptTransaction mk r) ∧
    (∀ i e, i < 6 →
      (∀ j, j < i → (recordCheckList r).getD j (.ok ()) = .ok ()) →
      (recordCheckList r).getD i (.ok ()) = .error e →
      decryptTransaction mk r = .error e) :=
  ⟨fun a m => decryptTransaction_alg_version_independent mk r a m,
   fun i e hi6 hpre hi => decryptTransaction_first_error mk r i e hi6 hpre hi⟩

/-- A record whose first check (`payload_nonce`) fails. -/
def badNonceRecord : TxSecureRecord :=
  { id := "i", partyId := "p", createdAt := "t",
    payload_nonce := "zz",
    payload_ct := "ab",
    payload_tag := "00000000000000000000000000000000",
    dek_wrap_nonce := "000000000000000000000000",
    dek_wrapped := "ab",
    dek_wrap_tag := "00000000000000000000000000000000",
    alg := "AES-256-GCM", mk_version := 1 }

/-- Witness for the amended C3 at concrete inputs. -/
theorem claim_C3_amended_witness :
    ((0 : Nat) < 6 ∧
      (∀ j, j < 0 → (recordCheckList badNonceRecord).getD j (.ok ()) = .ok ()) ∧
      (recordCheckList badNonceRecord).getD 0 (.ok ()) =
        .error (.validationError "payload_nonce must be valid hex")) ∧
    decryptTransaction [] { badNonceRecord with alg := "X", mk_version := 5 } =
      decryptTransaction [] badNonceRecord ∧
    decryptTransaction [] badNonceRecord =
      .error (.validationError "payload_nonce must be valid hex") :=
  ⟨⟨by decide, by decide, by decide⟩,
   (claim_C3_amended [] badNonceRecord).1 "X" 5,
   (claim_C3_amended [] badNonceRecord).2 0 _ (by decide) (by decide) (by decide)⟩

/-- A 64-hex-character key value followed by two non-hex characters: not a
well-formed 64-hex-character encoding, yet it decodes to 32 bytes. -/
def malformedEnvKey : String :=
  "0000000000000000000000000000000000000000000000000000000000000000zz"

/-- Claim C4: `getMasterKey` never fails.  Its type has no error channel,
and on malformed hex it silently returns the truncated (possibly empty)
decoding: an environment value `"zz"` yields an empty key, a key file
containing `"0102zz"` yields the two-byte key `[1, 2]`, and a 66-character
malformed environment value still yields a full 32-byte key, with which
the process would serve requests normally. -/
theorem claim_C4_master_key_not_validated :
    getMasterKey (some "zz") none sampleMasterKey = [] ∧
    getMasterKey none (some "0102zz") sampleMasterKey = [1, 2] ∧
    (getMasterKey (some malformedEnvKey) none sampleMasterKey).length = 32 := by
  refine ⟨by decide, by decide, by decide⟩

/-- A record in which `payload_tag` (of the spec's tag group) and
`dek_wrap_nonce` (of the spec's nonce group) are both invalid. -/
def mixedInvalidRecord : TxSecureRecord :=
  { id := "id-1", partyId := "p", createdAt := "t",
    payload_nonce := "000000000000000000000000",
    payload_ct := "ab",
    payload_tag := "zz",
    dek_wrap_nonce := "zz",
    dek_wrapped := "ab",
    dek_wrap_tag := "00000000000000000000000000000000",
    alg := "AES-256-GCM", mk_version := 1 }

/-- Claim C5 counterexample: the claim's order (both nonces before both
tags) predicts the `dek_wrap_nonce` error for `mixedInvalidRecord`; the
code raises the `payload_tag` error instead. -/
theorem claim_C5_counterexample :
    validateRecord mixedInvalidRecord =
      .error (.validationError "payload_tag must be valid hex") ∧
    validateRecord mixedInvalidRecord ≠
      .error (.validationError "dek_wrap_nonce must be valid hex") := by
  refine ⟨by decide, by decide⟩

/-- Claim C5 amended: `validateRecord` short-circuits at the first failing
check of the source-ordered sequence payload_nonce, payload_tag,
payload_ct, dek_wrap_nonce, dek_wrap_tag, dek_wrapped, alg, mk_version:
whenever all checks before position `i` succeed and check `i` fails, the
raised error is check `i`'s error. -/
theorem claim_C5_amended (r : TxSecureRecord) (i : Nat) (e : CryptoError)
    (hpre : ∀ j, j < i → (recordCheckList r).getD j (.ok ()) = .ok ())
    (hi : (recordCheckList r).getD i (.ok ()) = .error e) :
    validateRecord r = .error e :=
  validateRecord_first_error r i e hpre hi

/-- Witness for the amended C5 at `mixedInvalidRecord` and position 1. -/
theorem claim_C5_amended_witness :
    ((∀ j, j < 1 → (recordCheckList mixedInvalidRecord).getD j (.ok ()) = .ok ()) ∧
      (recordCheckList mixedInvalidRecord).getD 1 (.ok ()) =
        .error (.validationError "payload_tag must be valid hex")) ∧
    validateRecord mixedInvalidRecord =
      .error (.validationError "payload_tag must be valid hex") :=
  ⟨⟨by decide, by decide⟩,
   claim_C5_amended mixedInvalidRecord 1 _ (by decide) (by decide)⟩

/-- Claim C6 counterexample: changing the `partyId` field of a record
produced by `encryptTransaction` to a different value does not make
`decryptTransaction` fail; the modified record decrypts successfully. -/
theorem claim_C6_counterexample :
    "intruder" ≠ sampleRecord.partyId ∧
    decryptTransaction sampleMasterKey { sampleRecord with partyId := "intruder" } =
      .ok { partyId := "intruder", payload := samplePayload,
            createdAt := "2026-02-12T00:00:00Z" } := by
  constructor
  · decide
  · exact decryptTransaction_sealed sampleMasterKey sampleDek samplePayloadNonce
      sampleDekNonce samplePayload (by decide) (by decide) (by decide) (by decide)
      (by decide) (by decide) (by decide)
      "00ff" "intruder" "2026-02-12T00:00:00Z" "AES-256-GCM" 1

/-- Claim C6 amended: only the six cryptographic fields are protected.
For every record produced by `encryptTransaction`: replacing either nonce
field by a different well-formed 12-byte value, either tag field by a
different well-formed 16-byte value, or any single byte of either
ciphertext field by a different byte value, makes `decryptTransaction`
fail; the plaintext fields (`id`, `partyId`, `createdAt`, `alg`,
`mk_version`) are not authenticated (see the counterexample). -/
theorem claim_C6_crypto_fields_authenticated (mk dek pn dn : List Nat)
    (payload : Json) (partyId idv createdAt : String) (r : TxSecureRecord)
    (hr : r = encryptTransaction mk { partyId := partyId, payload := payload }
      dek pn dn idv createdAt)
    (hmk : mk.length = 32) (hdek : dek.length = 32) (hdekB : ByteList dek)
    (hpn : pn.length = 12) (hpnB : ByteList pn)
    (hdn : dn.length = 12) (hdnB : ByteList dn) :
    (∀ n2, ByteList n2 → n2.length = 12 → n2 ≠ pn →
      decryptTransaction mk { r with payload_nonce := hexEncode n2 } = tamperError) ∧
    (∀ n2, ByteList n2 → n2.length = 12 → n2 ≠ dn →
      decryptTransaction mk { r with dek_wrap_nonce := hexEncode n2 } = tamperError) ∧
    (∀ t2, ByteList t2 → t2.length = 16 → t2 ≠ hexDecode r.payload_tag →
      decryptTransaction mk { r with payload_tag := hexEncode t2 } = tamperError) ∧
    (∀ t2, ByteList t2 → t2.length = 16 → t2 ≠ hexDecode r.dek_wrap_tag →
      decryptTransaction mk { r with dek_wrap_tag := hexEncode t2 } = tamperError) ∧
    (∀ i y, i < (hexDecode r.payload_ct).length → y < 256 →
      y ≠ (hexDecode r.payload_ct).getD i 0 →
      decryptTransaction mk
        { r with payload_ct := hexEncode ((hexDecode r.payload_ct).set i y) } =
        tamperError) ∧
    (∀ i y, i < (hexDecode r.dek_wrapped).length → y < 256 →
      y ≠ (hexDecode r.dek_wrapped).getD i 0 →
      decryptTransaction mk
        { r with dek_wrapped := hexEncode ((hexDecode r.dek_wrapped).set i y) } =
        tamperError) := by
  subst hr
  have hctPB : ByteList (xorKs dek pn 0 (jsonStringify payload)) :=
    xorKs_byteList dek pn _ 0 (encJson_byteList payload)
  have hctDB : ByteList (xorKs mk dn 0 dek) := xorKs_byteList mk dn dek 0 hdekB
  have hPtag : ByteList (tagOf dek pn (xorKs dek pn 0 (jsonStringify payload))) :=
    tagOf_byteList dek pn _
  have hDtag : ByteList (tagOf mk dn (xorKs mk dn 0 dek)) := tagOf_byteList mk dn _
  have hectP : hexDecode (encryptTransaction mk
      { partyId := partyId, payload := payload } dek pn dn idv createdAt).payload_ct =
      xorKs dek pn 0 (jsonStringify payload) := hexDecode_hexEncode _ hctPB
  have hectT : hexDecode (encryptTransaction mk
      { partyId := partyId, payload := payload } dek pn dn idv createdAt).payload_tag =
      tagOf dek pn (xorKs dek pn 0 (jsonStringify payload)) := hexDecode_hexEncode _ hPtag
  have hectD : hexDecode (encryptTransaction mk
      { partyId := partyId, payload := payload } dek pn dn idv createdAt).dek_wrapped =
      xorKs mk dn 0 dek := hexDecode_hexEncode _ hctDB
  have hectDT : hexDecode (encryptTransaction mk
      { partyId := partyId, payload := payload } dek pn dn idv createdAt).dek_wrap_tag =
      tagOf mk dn (xorKs mk dn 0 dek) := hexDecode_hexEncode _ hDtag
  refine ⟨?_, ?_, ?_, ?_, ?_, ?_⟩
  · intro n2 hB hl hne
    exact tampered_payload_nonce mk dek pn dn payload hmk hdek hdekB hpn hpnB hdn hdnB
      idv partyId createdAt "AES-256-GCM" 1 n2 hB hl hne
  · intro n2 hB hl hne
    exact tampered_dek_wrap_nonce mk dek pn dn payload hdek hdekB hpn hpnB hdn hdnB
      idv partyId createdAt "AES-256-GCM" 1 n2 hB hl hne
  · intro t2 hB hl hne
    rw [hectT] at hne
    exact tampered_payload_tag mk dek pn dn payload hmk hdek hdekB hpn hpnB hdn hdnB
      idv partyId createdAt "AES-256-GCM" 1 t2 hB hl hne
  · intro t2 hB hl hne
    rw [hectDT] at hne
    exact tampered_dek_wrap_tag mk dek pn dn payload hdek hdekB hpn hpnB hdn hdnB
      idv partyId createdAt "AES-256-GCM" 1 t2 hB hl hne
  · intro i y hi hy hne
    rw [hectP] at hi hne ⊢
    exact tampered_payload_ct mk dek pn dn payload hmk hdek hdekB hpn hpnB hdn hdnB
      idv partyId createdAt "AES-256-GCM" 1 _
      (byteList_set _ i y hctPB hy)
      (by
        intro hnil
        have hlen := congrArg List.length hnil
        rw [List.length_set] at hlen
        simp only [List.length_nil] at hlen
        omega)
      (tagOf_ne_set dek pn _ i y hi hctPB hy hne)
  · intro i y hi hy hne
    rw [hectD] at hi hne ⊢
    exact tampered_dek_wrapped mk dek pn dn payload hdek hdekB hpn hpnB hdn hdnB
      idv partyId createdAt "AES-256-GCM" 1 _
      (byteList_set _ i y hctDB hy)
      (by
        intro hnil
        have hlen := congrArg List.length hnil
        rw [List.length_set] at hlen
        simp only [List.length_nil] at hlen
        omega)
      (tagOf_ne_set mk dn _ i y hi hctDB hy hne)

/-- Witness for the amended C6 at the sample record: a different payload
nonce and a one-byte change of the wrapped DEK both make decryption
fail. -/
theorem claim_C6_crypto_fields_authenticated_witness :
    (ByteList (List.replicate 12 7) ∧ (List.replicate 12 7).length = 12 ∧
      List.replicate 12 7 ≠ samplePayloadNonce ∧
      0 < (hexDecode sampleRecord.dek_wrapped).length ∧ (1 : Nat) < 256) ∧
    decryptTransaction sampleMasterKey
      { sampleRecord with payload_nonce := hexEncode (List.replicate 12 7) } =
      tamperError ∧
    decryptTransaction sampleMasterKey
      { sampleRecord with
        dek_wrapped := hexEncode ((hexDecode sampleRecord.dek_wrapped).set 0
            ((hexDecode sampleRecord.dek_wrapped).getD 0 0 ^^^ 2 ^ 0)) } =
      tamperError := by
  have hctDB : ByteList (xorKs sampleMasterKey sampleDekNonce 0 sampleDek) :=
    xorKs_byteList sampleMasterKey sampleDekNonce sampleDek 0 (by decide)
  have hlenD : 0 < (hexDecode sampleRecord.dek_wrapped).length := by
    show 0 < (hexDecode (hexEncode (xorKs sampleMasterKey sampleDekNonce 0 sampleDek))).length
    rw [hexDecode_hexEncode _ hctDB, xorKs_length]
    decide
  have h := claim_C6_crypto_fields_authenticated sampleMasterKey sampleDek
    samplePayloadNonce sampleDekNonce samplePayload "party-123" "00ff"
    "2026-02-12T00:00:00Z" sampleRecord rfl (by decide) (by decide) (by decide)
    (by decide) (by decide) (by decide) (by decide)
  have hyval : (hexDecode sampleRecord.dek_wrapped).getD 0 0 ^^^ 2 ^ 0 < 256 := by
    show (hexDecode (hexEncode (xorKs sampleMasterKey sampleDekNonce 0 sampleDek))).getD 0 0
      ^^^ 2 ^ 0 < 256
    rw [hexDecode_hexEncode _ hctDB]
    exact lt256_xor _ _
      (getD_lt_256 _ 0 hctDB (by rw [xorKs_length]; decide))
      (pow2_lt_256 0 (by decide))
  have hyne : (hexDecode sampleRecord.dek_wrapped).getD 0 0 ^^^ 2 ^ 0 ≠
      (hexDecode sampleRecord.dek_wrapped).getD 0 0 := xor_pow2_ne _ 0
  exact ⟨⟨by decide, by decide, by decide, hlenD, by decide⟩,
    h.1 (List.replicate 12 7) (by decide) (by decide) (by decide),
    h.2.2.2.2.2 0 _ hlenD hyval hyne⟩

/-- Claim C7: error conflation after structural validation.  For every
master key and record whose six field validations succeed,
`decryptTransaction` either succeeds or fails with a `DecryptionError` —
never a `ValidationError` or any other error kind — whether the failure is
the DEK unwrap, the payload decryption or the JSON parse. -/
theorem claim_C7_error_conflation (mk : List Nat) (r : TxSecureRecord)
    (h1 : validateNonce r.payload_nonce "payload_nonce" = .ok ())
    (h2 : validateTag r.payload_tag "payload_tag" = .ok ())
    (h3 : validateCipherText r.payload_ct "payload_ct" = .ok ())
    (h4 : validateNonce r.dek_wrap_nonce "dek_wrap_nonce" = .ok ())
    (h5 : validateTag r.dek_wrap_tag "dek_wrap_tag" = .ok ())
    (h6 : validateCipherText r.dek_wrapped "dek_wrapped" = .ok ()) :
    (∃ d, decryptTransaction mk r = .ok d) ∨
    (∃ m, decryptTransaction mk r = .error (.decryptionError m)) := by
  rw [decryptTransaction_unfold mk r h1 h2 h3 h4 h5 h6]
  cases hdw : decrypt r.dek_wrapped mk r.dek_wrap_nonce r.dek_wrap_tag with
  | error e =>
    have he := decrypt_error_msg _ _ _ _ e hdw
    subst he
    right
    exact ⟨"Decryption failed: ciphertext or tag may be tampered", by dsimp only⟩
  | ok dek =>
    dsimp only
    cases hpw : decrypt r.payload_ct dek r.payload_nonce r.payload_tag with
    | error e =>
      have he := decrypt_error_msg _ _ _ _ e hpw
      subst he
      right
      exact ⟨"Decryption failed: ciphertext or tag may be tampered", by dsimp only⟩
    | ok pb =>
      dsimp only
      cases hj : jsonParse pb with
      | none =>
        right
        exact ⟨"Decryption failed: invalid JSON", by dsimp only⟩
      | some p =>
        left
        exact ⟨{ partyId := r.partyId, payload := p, createdAt := r.createdAt },
          by dsimp only⟩

/-- A record whose six fields are well-formed but whose cryptographic
contents are arbitrary. -/
def garbageValidRecord : TxSecureRecord :=
  { id := "g", partyId := "p", createdAt := "t",
    payload_nonce := "000000000000000000000000",
    payload_ct := "abcd",
    payload_tag := "00000000000000000000000000000000",
    dek_wrap_nonce := "000000000000000000000000",
    dek_wrapped := "abcd",
    dek_wrap_tag := "00000000000000000000000000000000",
    alg := "AES-256-GCM", mk_version := 1 }

/-- Witness for C7 at `garbageValidRecord` with an empty master key. -/
theorem claim_C7_error_conflation_witness :
    (validateNonce garbageValidRecord.payload_nonce "payload_nonce" = .ok () ∧
      validateTag garbageValidRecord.payload_tag "payload_tag" = .ok () ∧
      validateCipherText garbageValidRecord.payload_ct "payload_ct" = .ok () ∧
      validateNonce garbageValidRecord.dek_wrap_nonce "dek_wrap_nonce" = .ok () ∧
      validateTag garbageValidRecord.dek_wrap_tag "dek_wrap_tag" = .ok () ∧
      validateCipherText garbageValidRecord.dek_wrapped "dek_wrapped" = .ok ()) ∧
    ((∃ d, decryptTransaction [] garbageValidRecord = .ok d) ∨
      (∃ m, decryptTransaction [] garbageValidRecord = .error (.decryptionError m))) :=
  ⟨⟨by decide, by decide, by decide, by decide, by decide, by decide⟩,
   claim_C7_error_conflation [] garbageValidRecord
     (by decide) (by decide) (by decide) (by decide) (by decide) (by decide)⟩

/-- Claim C8: algorithm and version gating in `validateRecord`.  For every
record whose six cryptographic fields pass their validations,
`validateRecord` still fails with a `ValidationError` when `alg` is not
"AES-256-GCM" or `mk_version` is not 1, and succeeds when both hold. -/
theorem claim_C8_alg_version_gating (r : TxSecureRecord)
    (h1 : validateNonce r.payload_nonce "payload_nonce" = .ok ())
    (h2 : validateTag r.payload_tag "payload_tag" = .ok ())
    (h3 : validateCipherText r.payload_ct "payload_ct" = .ok ())
    (h4 : validateNonce r.dek_wrap_nonce "dek_wrap_nonce" = .ok ())
    (h5 : validateTag r.dek_wrap_tag "dek_wrap_tag" = .ok ())
    (h6 : validateCipherText r.dek_wrapped "dek_wrapped" = .ok ()) :
    (r.alg ≠ "AES-256-GCM" →
      validateRecord r = .error (.validationError "Invalid algorithm")) ∧
    (r.alg = "AES-256-GCM" → r.mk_version ≠ 1 →
      validateRecord r = .error (.validationError "Invalid master key version")) ∧
    (r.alg = "AES-256-GCM" → r.mk_version = 1 → validateRecord r = .ok ()) := by
  unfold validateRecord
  simp only [h1, h2, h3, h4, h5, h6]
  refine ⟨?_, ?_, ?_⟩
  · intro halg
    rw [if_pos halg]
  · intro halg hmk
    rw [if_neg (by simp [halg]), if_pos hmk]
  · intro halg hmk
    rw [if_neg (by simp [halg]), if_neg (by simp [hmk])]

/-- Witness for C8: an unsupported algorithm tag and an unsupported
version are rejected, the supported pair is accepted. -/
theorem claim_C8_alg_version_gating_witness :
    (validateNonce garbageValidRecord.payload_nonce "payload_nonce" = .ok () ∧
      ({ garbageValidRecord with alg := "DES" } : TxSecureRecord).alg ≠ "AES-256-GCM" ∧
      ({ garbageValidRecord with mk_version := 7 } : TxSecureRecord).mk_version ≠ 1) ∧
    validateRecord { garbageValidRecord with alg := "DES" } =
      .error (.validationError "Invalid algorithm") ∧
    validateRecord { garbageValidRecord with mk_version := 7 } =
      .error (.validationError "Invalid master key version") ∧
    validateRecord garbageValidRecord = .ok () :=
  ⟨⟨by decide, by decide, by decide⟩,
   (claim_C8_alg_version_gating { garbageValidRecord with alg := "DES" }
     (by decide) (by decide) (by decide) (by decide) (by decide) (by decide)).1
     (by decide),
   ((claim_C8_alg_version_gating { garbageValidRecord with mk_version := 7 }
     (by decide) (by decide) (by decide) (by decide) (by decide) (by decide)).2.1
     (by decide) (by decide)),
   ((claim_C8_alg_version_gating garbageValidRecord
     (by decide) (by decide) (by decide) (by decide) (by decide) (by decide)).2.2
     (by decide) (by decide))⟩

/-- Claim C9: hex validity and byte length are distinct, separately
reported failure causes.  A non-hex nonce or tag field fails with the
"must be valid hex" message naming that field, whatever its length; a
valid-hex nonce decoding to a length other than 12 bytes, or a valid-hex
tag decoding to a length other than 16 bytes, fails with the byte-length
message naming that field. -/
theorem claim_C9_distinct_failure_causes (s f : String) :
    (¬ isValidHex s = true →
      validateNonce s f = .error (.validationError (f ++ " must be valid hex")) ∧
      validateTag s f = .error (.validationError (f ++ " must be valid hex"))) ∧
    (isValidHex s = true → (hexDecode s).length ≠ 12 →
      validateNonce s f = .error (.validationError (f ++ " must be 12 bytes"))) ∧
    (isValidHex s = true → (hexDecode s).length ≠ 16 →
      validateTag s f = .error (.validationError (f ++ " must be 16 bytes"))) := by
  refine ⟨?_, ?_, ?_⟩
  · intro h
    unfold validateNonce validateTag
    rw [if_pos h, if_pos h]
    exact ⟨rfl, rfl⟩
  · intro hv hl
    unfold validateNonce
    rw [if_neg (by simp [hv]), if_pos hl]
  · intro hv hl
    unfold validateTag
    rw [if_neg (by simp [hv]), if_pos hl]

/-- Witness for C9: a non-hex string of nonce length, and valid-hex
strings of the wrong byte lengths. -/
theorem claim_C9_distinct_failure_causes_witness :
    (¬ isValidHex "zz0000000000000000000000" = true ∧
      isValidHex "0011" = true ∧ (hexDecode "0011").length ≠ 12 ∧
      (hexDecode "0011").length ≠ 16) ∧
    validateNonce "zz0000000000000000000000" "payload_nonce" =
      .error (.validationError "payload_nonce must be valid hex") ∧
    validateTag "zz0000000000000000000000" "payload_tag" =
      .error (.validationError "payload_tag must be valid hex") ∧
    validateNonce "0011" "dek_wrap_nonce" =
      .error (.validationError "dek_wrap_nonce must be 12 bytes") ∧
    validateTag "0011" "dek_wrap_tag" =
      .error (.validationError "dek_wrap_tag must be 16 bytes") :=
  ⟨⟨by decide, by decide, by decide, by decide⟩,
   ((claim_C9_distinct_failure_causes "zz0000000000000000000000" "payload_nonce").1
     (by decide)).1,
   ((claim_C9_distinct_failure_causes "zz0000000000000000000000" "payload_tag").1
     (by decide)).2,
   (claim_C9_distinct_failure_causes "0011" "dek_wrap_nonce").2.1 (by decide) (by decide),
   (claim_C9_distinct_failure_causes "0011" "dek_wrap_tag").2.2 (by decide) (by decide)⟩

/-- Claim C10: non-canonical hex encodings are accepted.  The hex-validity
regex accepts odd-length strings and decoding drops an unpaired trailing
digit, so a valid-hex string decodes to `length / 2` bytes; in particular
every 25-character all-hex nonce field passes `validateNonce`, and
appending one hex digit to an even-length `payload_nonce` changes neither
validation nor the result of `decryptTransaction`. -/
theorem claim_C10_non_canonical_hex :
    (∀ s : String, isValidHex s = true → (hexDecode s).length = s.length / 2) ∧
    (∀ (s f : String), isValidHex s = true → s.length = 25 →
      validateNonce s f = .ok ()) ∧
    (∀ (mk : List Nat) (r : TxSecureRecord) (c : Char),
      (hexDigitVal? c).isSome = true → r.payload_nonce.length % 2 = 0 →
      decryptTransaction mk { r with payload_nonce := r.payload_nonce ++ c.toString } =
        decryptTransaction mk r) := by
  refine ⟨fun s hv => hexDecode_length_valid s hv, ?_, ?_⟩
  · intro s f hv h25
    have h12 : (hexDecode s).length = 12 := by
      rw [hexDecode_length_valid s hv, h25]
    unfold validateNonce
    rw [if_neg (by simp [hv]), if_neg (by simp [h12])]
  · intro mk r c hc heven
    exact decryptTransaction_payload_nonce_snoc mk r c hc heven

/-- Witness for C10: a 25-character all-hex string, and the sample
well-formed record with one hex digit appended to its nonce. -/
theorem claim_C10_non_canonical_hex_witness :
    (isValidHex "aaaaaaaaaaaaaaaaaaaaaaaaa" = true ∧
      ("aaaaaaaaaaaaaaaaaaaaaaaaa" : String).length = 25 ∧
      (hexDigitVal? 'f').isSome = true ∧
      garbageValidRecord.payload_nonce.length % 2 = 0) ∧
    (hexDecode "aaaaaaaaaaaaaaaaaaaaaaaaa").length =
      ("aaaaaaaaaaaaaaaaaaaaaaaaa" : String).length / 2 ∧
    validateNonce "aaaaaaaaaaaaaaaaaaaaaaaaa" "payload_nonce" = .ok () ∧
    decryptTransaction [] { garbageValidRecord with
      payload_nonce := garbageValidRecord.payload_nonce ++ 'f'.toString } =
      decryptTransaction [] garbageValidRecord :=
  ⟨⟨by decide, by decide, by decide, by decide⟩,
   claim_C10_non_canonical_hex.1 "aaaaaaaaaaaaaaaaaaaaaaaaa" (by decide),
   claim_C10_non_canonical_hex.2.1 "aaaaaaaaaaaaaaaaaaaaaaaaa" "payload_nonce"
     (by decide) (by decide),
   claim_C10_non_canonical_hex.2.2 [] garbageValidRecord 'f' (by decide) (by decide)⟩

end MirfaCrypto
